import Mathlib

/-!
Shallow embedding of the ESG report crawler (`esg_crawler.py`).

Python strings are modelled as Lean `String` / `List Char`, float arithmetic as
exact rational arithmetic over `ℚ`, and the fixed regular expressions of the
source as executable backtracking matchers whose candidate order mirrors the
backtracking order of CPython's `re` module.  External collaborators (HTTP
fetch, HTML parser, NLTK tooling) are modelled as explicit inputs: a parsed
page is a `Page` record, the network is a `fetch` oracle, and the NLTK
primitives used by the v4 strategy are an `NlpTools` record of oracles.
-/

set_option maxRecDepth 100000

namespace ESGCrawler

abbrev Chars := List Char

/-- Occurrence of `needle` as a contiguous sublist of the given list. -/
def listContainsSub (needle : Chars) : Chars → Bool
  | [] => needle.isEmpty
  | c :: r => needle.isPrefixOf (c :: r) || listContainsSub needle r

/-- Python `needle in hay` substring test. -/
def pyContains (hay needle : String) : Bool :=
  listContainsSub needle.toList hay.toList

/-- Characters stripped by Python `str.strip()` (ASCII fragment). -/
def pyWhitespace (c : Char) : Bool :=
  c = ' ' || c = '\t' || c = '\n' || c = '\r' || c = '\x0b' || c = '\x0c'

/-- Python `str.strip()` on ASCII whitespace. -/
def pyStrip (s : String) : String :=
  ⟨((s.toList.dropWhile pyWhitespace).reverse.dropWhile pyWhitespace).reverse⟩

/-- Python `str.lower()` (ASCII fragment), character-list based. -/
def pyLower (s : String) : String := ⟨s.toList.map Char.toLower⟩

/-- Python `str.startswith(p)`, character-list based. -/
def pyStartsWith (s p : String) : Bool := p.toList.isPrefixOf s.toList

/-- Numeric value of a digit string (Python `int` on the all-digit strings
this embedding applies it to). -/
def digitsVal (cs : Chars) : Nat := cs.foldl (fun a c => a * 10 + (c.toNat - 48)) 0

/-- Python `\d` on ASCII input. -/
def pyDigit (c : Char) : Bool := '0' ≤ c && c ≤ '9'

/-- Python `\s` on ASCII input. -/
def pyWs (c : Char) : Bool := pyWhitespace c

/-- Python `\w` (word character) on ASCII input. -/
def isWordChar (c : Char) : Bool := c.isAlphanum || c = '_'

/-- Python `round(x, n)` over exact rationals (ties are immaterial here:
every rounded quantity in the crawler is already an exact multiple of the
rounding unit). -/
def roundTo (n : Nat) (x : ℚ) : ℚ :=
  let m : ℚ := (10 : ℚ) ^ n
  ((⌊x * m + 1/2⌋ : ℤ) : ℚ) / m

/-! ### Regular-expression machinery

A matcher sends an input suffix to the list of `(consumed, rest)` candidates
in the order CPython's backtracking engine would try them (greedy quantifiers
longest first, alternatives in source order). -/

def RMatch := Chars → List (Chars × Chars)

/-- Case-sensitive literal. -/
def mLit (s : Chars) : RMatch := fun cs =>
  if s.isPrefixOf cs then [(s, cs.drop s.length)] else []

/-- Case-insensitive literal (pattern given in lowercase); the consumed text
keeps its original case, as `re.IGNORECASE` does. -/
def mLitCI (s : Chars) : RMatch := fun cs =>
  let pre := cs.take s.length
  if pre.map Char.toLower == s && pre.length == s.length then
    [(pre, cs.drop s.length)]
  else []

def mSeq (a b : RMatch) : RMatch := fun cs =>
  (a cs).flatMap (fun p => (b p.2).map (fun q => (p.1 ++ q.1, q.2)))

def mAlt (a b : RMatch) : RMatch := fun cs => a cs ++ b cs

def mAlts (ms : List RMatch) : RMatch := fun cs => ms.flatMap (fun m => m cs)

def mEps : RMatch := fun cs => [([], cs)]

def mOpt (a : RMatch) : RMatch := fun cs => a cs ++ [([], cs)]

/-- Single character satisfying a predicate. -/
def mPred (p : Char → Bool) : RMatch := fun cs =>
  match cs with
  | [] => []
  | c :: r => if p c then [([c], r)] else []

/-- Regex `.` (any character but a newline). -/
def mDot : RMatch := mPred (fun c => c ≠ '\n')

def countLeading (p : Char → Bool) : Chars → Nat
  | [] => 0
  | c :: r => if p c then countLeading p r + 1 else 0

/-- Greedy `p+`: candidates from the longest take down to one character. -/
def mPlusGreedy (p : Char → Bool) : RMatch := fun cs =>
  let n := countLeading p cs
  (List.range n).map (fun k => (cs.take (n - k), cs.drop (n - k)))

/-- Greedy `p*`: candidates from the longest take down to the empty one. -/
def mStarGreedy (p : Char → Bool) : RMatch := fun cs =>
  let n := countLeading p cs
  (List.range (n + 1)).map (fun k => (cs.take (n - k), cs.drop (n - k)))

/-- Exactly `k` characters satisfying `p` (regex `p{k}`). -/
def mRepExact (p : Char → Bool) (k : Nat) : RMatch := fun cs =>
  let pre := cs.take k
  if pre.length == k && pre.all p then [(pre, cs.drop k)] else []

/-- Fuel-bounded greedy Kleene star of a matcher (every use consumes at least
one character per iteration, so input length is sufficient fuel). -/
def mStarFuel (body : RMatch) : Nat → RMatch
  | 0 => mEps
  | n + 1 => fun cs => (mSeq body (mStarFuel body n)) cs ++ [([], cs)]

def mStarB (body : RMatch) : RMatch := fun cs => mStarFuel body cs.length cs

/-- Python `re.search(pattern, s)` truthiness. -/
def reSearchB (m : RMatch) : Chars → Bool
  | [] => !(m []).isEmpty
  | c :: r => !(m (c :: r)).isEmpty || reSearchB m r

/-- Python `re.findall` scanning: leftmost matches, non-overlapping, first
candidate in backtracking order at each matching position. -/
def scanAllAux {α : Type} (f : Chars → Option (α × Chars)) : Nat → Chars → List α
  | 0, _ => []
  | _ + 1, [] =>
    match f [] with
    | some (v, _) => [v]
    | none => []
  | fuel + 1, c :: r =>
    match f (c :: r) with
    | some (v, rest) => v :: scanAllAux f fuel rest
    | none => scanAllAux f fuel r

def scanAll {α : Type} (f : Chars → Option (α × Chars)) (cs : Chars) : List α :=
  scanAllAux f (cs.length + 1) cs

/-- Scanner variant that tracks the previous character, for patterns anchored
by a leading `\b` word boundary; the match function returns the matched value,
the last consumed character, and the rest. -/
def scanAllBAux {α : Type} (f : Option Char → Chars → Option (α × Option Char × Chars)) :
    Nat → Option Char → Chars → List α
  | 0, _, _ => []
  | fuel + 1, prev, cs =>
    match f prev cs with
    | some (v, last, rest) => v :: scanAllBAux f fuel last rest
    | none =>
      match cs with
      | [] => []
      | c :: r => scanAllBAux f fuel (some c) r

def scanAllB {α : Type} (f : Option Char → Chars → Option (α × Option Char × Chars))
    (cs : Chars) : List α :=
  scanAllBAux f (cs.length + 1) none cs

/-! ### Data model -/

/-- An `<a href=...>` element of the parsed page (`soup.find_all('a', href=True)`):
its `href` attribute and its `get_text()`. -/
structure Anchor where
  href : String
  text : String

/-- Facts the detection strategies query from the parsed page (the
BeautifulSoup collaborator): the page's `get_text()`, its anchors, the
`get_text()` of every element matching `find_all(['nav','ul','div'],
class_=re.compile(r'nav|menu', re.I))`, and the `<title>` text if present. -/
structure Page where
  text : String
  anchors : List Anchor
  navTexts : List String
  title : Option String

/-- Empty markup: `BeautifulSoup("", 'html.parser')`. -/
def emptyPage : Page := { text := "", anchors := [], navTexts := [], title := none }

/-- Document link discovered on the page (v3). -/
structure DocInfo where
  url : String
  link_text : String
  doctype : String
  is_sustainability_related : Bool

structure DocumentDiscovery where
  pdf_documents : List DocInfo := []
  doc_documents : List DocInfo := []
  total_documents_found : Nat := 0
  sustainability_documents : List DocInfo := []

structure QuantPatterns where
  percentages_found : List String := []
  targets_found : List String := []
  metrics_found : List String := []
  years_found : List String := []
  numerical_goals : List String := []

/-- Evidence dictionary fields that feed a decision or a claim.  `v1` stores
plain keyword strings in `keywords_found`; the weighted versions store
`(keyword, impact)` pairs — we store the impact tag as `""` for v1. -/
structure Evidence where
  keywords_found : List (String × String) := []
  navigation_matches : List String := []
  title_matches : List String := []
  url_patterns_found : List String := []
  sustainability_score : ℚ := 0
  confidence_level : ℚ := 0
  quantitative_data_found : Bool := false
  targets_or_goals_found : Bool := false
  document_discovery : DocumentDiscovery := {}
  quantitative_patterns : QuantPatterns := {}
  nlp_commitment_strength : ℚ := 0

/-! ### Fixed keyword lists of the source -/

def esg_keywords : List String :=
  ["sustainability report", "esg report", "csr report", "environmental report",
   "social responsibility report", "annual sustainability", "impact report",
   "corporate responsibility report", "governance report", "climate report",
   "carbon report", "environmental social governance"]

def esg_nav_keywords : List String :=
  ["sustainability", "esg", "csr", "responsibility", "environmental", "governance"]

def title_keywords : List String :=
  ["sustainability", "esg", "csr", "responsibility"]

def high_impact_keywords : List String :=
  ["sustainability report", "carbon footprint", "net zero",
   "science-based targets", "ESG strategy", "climate action"]

def medium_impact_keywords : List String :=
  ["green initiatives", "renewable energy", "energy efficiency",
   "waste reduction", "circular economy"]

def low_impact_keywords : List String :=
  ["eco-friendly", "sustainable practices", "environmental awareness"]

/-! ### Detection strategy v1 -/

def detect_esg_content_v1 (page : Page) : Bool × Evidence :=
  let page_text := pyLower page.text
  let kws := esg_keywords.filter (fun k => pyContains page_text k)
  let navMatches := page.navTexts.flatMap
    (fun nt => esg_nav_keywords.filter (fun k => pyContains (pyLower nt) k))
  let titleMatches :=
    match page.title with
    | none => []
    | some t => title_keywords.filter (fun k => pyContains (pyLower t) k)
  let has_esg := !kws.isEmpty || !navMatches.isEmpty || !titleMatches.isEmpty
  (has_esg,
   { keywords_found := kws.map (fun k => (k, "")),
     navigation_matches := navMatches,
     title_matches := titleMatches })

/-! ### Detection strategy v2 -/

/-- Regex `\d+%|\d+\s*(tons?|tonnes?|MW|GW|kWh|CO2|carbon)` (case-sensitive,
applied by the source to the already lower-cased page text). -/
def quantitativePatternV2 : RMatch :=
  mAlt (mSeq (mPlusGreedy pyDigit) (mLit ['%']))
    (mSeq (mPlusGreedy pyDigit) (mSeq (mStarGreedy pyWs)
      (mAlts [mSeq (mLit "ton".toList) (mOpt (mLit "s".toList)),
              mSeq (mLit "tonne".toList) (mOpt (mLit "s".toList)),
              mLit "MW".toList, mLit "GW".toList, mLit "kWh".toList,
              mLit "CO2".toList, mLit "carbon".toList])))

/-- Regex `by\s+20\d{2}|target|goal|commitment`. -/
def targetsPatternV2 : RMatch :=
  mAlts [mSeq (mLit "by".toList) (mSeq (mPlusGreedy pyWs)
           (mSeq (mLit "20".toList) (mSeq (mPred pyDigit) (mPred pyDigit)))),
         mLit "target".toList, mLit "goal".toList, mLit "commitment".toList]

def v2_high (page : Page) : List String :=
  high_impact_keywords.filter (fun k => pyContains (pyLower page.text) k)

def v2_med (page : Page) : List String :=
  medium_impact_keywords.filter (fun k => pyContains (pyLower page.text) k)

def v2_low (page : Page) : List String :=
  low_impact_keywords.filter (fun k => pyContains (pyLower page.text) k)

def v2_keywords_found (page : Page) : List (String × String) :=
  (v2_high page).map (fun k => (k, "high")) ++ (v2_med page).map (fun k => (k, "medium"))
    ++ (v2_low page).map (fun k => (k, "low"))

def v2_quant_found (page : Page) : Bool :=
  reSearchB quantitativePatternV2 (pyLower page.text).toList

def v2_targets_found (page : Page) : Bool :=
  reSearchB targetsPatternV2 (pyLower page.text).toList

def content_quality_score (page : Page) : ℚ :=
  min 0.4 (((v2_high page).length : ℚ) * 0.1) + min 0.3 (((v2_med page).length : ℚ) * 0.05)
    + min 0.1 (((v2_low page).length : ℚ) * 0.02)
    + (if v2_quant_found page then 0.15 else 0)
    + (if v2_targets_found page then 0.05 else 0)

def nav_matches (page : Page) : List String :=
  page.navTexts.flatMap (fun nt => esg_nav_keywords.filter (fun k => pyContains (pyLower nt) k))

def nav_score (page : Page) : ℚ := ((nav_matches page).length : ℚ) * 0.1

def title_matches (page : Page) : List String :=
  match page.title with
  | none => []
  | some t => title_keywords.filter (fun k => pyContains (pyLower t) k)

def title_score (page : Page) : ℚ := ((title_matches page).length : ℚ) * 0.2

def overall_score (page : Page) : ℚ :=
  min 10.0 (content_quality_score page * 6.0 + nav_score page * 2.0 + title_score page * 2.0)

def v2_data_points (page : Page) : Nat :=
  (v2_keywords_found page).length + (nav_matches page).length + (title_matches page).length

def v2_confidence (page : Page) : ℚ := min 1.0 (0.3 + (v2_data_points page : ℚ) * 0.1)

def detect_esg_content_v2 (page : Page) : Bool × Evidence :=
  let has_esg := decide ((2.0 : ℚ) ≤ overall_score page)
    || decide ((0.6 : ℚ) ≤ v2_confidence page)
  (has_esg,
   { keywords_found := v2_keywords_found page,
     navigation_matches := nav_matches page,
     title_matches := title_matches page,
     sustainability_score := roundTo 2 (overall_score page),
     confidence_level := roundTo 3 (v2_confidence page),
     quantitative_data_found := v2_quant_found page,
     targets_or_goals_found := v2_targets_found page })

/-! ### Detection strategy v3: document discovery -/

def pdf_extensions : List String := [".pdf"]

def doc_extensions : List String := [".doc", ".docx", ".xls", ".xlsx", ".ppt", ".pptx"]

def sustainability_doc_keywords : List String :=
  ["sustainability", "esg", "csr", "responsibility", "environmental",
   "carbon", "climate", "green", "renewable", "annual report",
   "impact report", "governance", "ethics", "compliance"]

def discover_documents (page : Page) : DocumentDiscovery :=
  let step := fun (d : DocumentDiscovery) (a : Anchor) =>
    let href := pyLower a.href
    let ltext := pyLower (pyStrip a.text)
    if pdf_extensions.any (fun e => pyContains href e) then
      let di : DocInfo :=
        { url := href, link_text := ltext, doctype := "pdf",
          is_sustainability_related :=
            sustainability_doc_keywords.any
              (fun k => pyContains href k || pyContains ltext k) }
      { d with pdf_documents := d.pdf_documents ++ [di],
               sustainability_documents :=
                 if di.is_sustainability_related then
                   d.sustainability_documents ++ [di]
                 else d.sustainability_documents }
    else if doc_extensions.any (fun e => pyContains href e) then
      let di : DocInfo :=
        { url := href, link_text := ltext, doctype := "office_document",
          is_sustainability_related :=
            sustainability_doc_keywords.any
              (fun k => pyContains href k || pyContains ltext k) }
      { d with doc_documents := d.doc_documents ++ [di],
               sustainability_documents :=
                 if di.is_sustainability_related then
                   d.sustainability_documents ++ [di]
                 else d.sustainability_documents }
    else d
  let d0 := page.anchors.foldl step {}
  { d0 with total_documents_found := d0.pdf_documents.length + d0.doc_documents.length }

/-! ### Detection strategy v3: quantitative extraction -/

/-- Regex `\d+(?:\.\d+)?`. -/
def numM : RMatch :=
  mSeq (mPlusGreedy pyDigit) (mOpt (mSeq (mLit ['.']) (mPlusGreedy pyDigit)))

/-- One match of `(\d+(?:\.\d+)?)\s*%` at the current position; the stored
string is the captured number followed by a percent sign. -/
def pctMatchAt (cs : Chars) : Option (String × Chars) :=
  (((numM cs).flatMap (fun p =>
    ((mStarGreedy pyWs) p.2).flatMap (fun q =>
      (mLit ['%'] q.2).map (fun r => (String.mk p.1 ++ "%", r.2))))).head?)

/-- Verb alternatives of the target/goal pattern. -/
def mVerb : RMatch :=
  mAlts [mLitCI "target".toList, mLitCI "goal".toList, mLitCI "aim".toList,
         mLitCI "reduce".toList, mLitCI "increase".toList, mLitCI "achieve".toList]

/-- Captured group `\d{4}|\d+(?:\.\d+)?%|\d+(?:\.\d+)?\s*(?:million|billion|thousand|tons?|kg|mt)`. -/
def mNumAlt : RMatch :=
  mAlts [mRepExact pyDigit 4,
         mSeq numM (mLit ['%']),
         mSeq numM (mSeq (mStarGreedy pyWs)
           (mAlts [mLitCI "million".toList, mLitCI "billion".toList,
                   mLitCI "thousand".toList,
                   mSeq (mLitCI "ton".toList) (mOpt (mLitCI "s".toList)),
                   mLitCI "kg".toList, mLitCI "mt".toList]))]

/-- One match of the target pattern
`(?:target|goal|aim|reduce|increase|achieve)\s+(?:by\s+)?(...)` (IGNORECASE). -/
def targetMatchAt (cs : Chars) : Option (String × Chars) :=
  (((mVerb cs).flatMap (fun p =>
    ((mPlusGreedy pyWs) p.2).flatMap (fun q =>
      ((mOpt (mSeq (mLitCI "by".toList) (mPlusGreedy pyWs))) q.2).flatMap (fun r =>
        (mNumAlt r.2).map (fun s => (String.mk s.1, s.2)))))).head?)

/-- Regex `\d+(?:,\d{3})*(?:\.\d+)?`. -/
def numCommaM : RMatch :=
  mSeq (mPlusGreedy pyDigit)
    (mSeq (mStarB (mSeq (mLit [',']) (mRepExact pyDigit 3)))
      (mOpt (mSeq (mLit ['.']) (mPlusGreedy pyDigit))))

def mMetricUnit : RMatch :=
  mAlts [mSeq (mLitCI "ton".toList) (mOpt (mLitCI "s".toList)),
         mLitCI "kg".toList, mLitCI "mt".toList, mLitCI "kwh".toList,
         mLitCI "mwh".toList, mLitCI "gwh".toList, mLitCI "co2".toList,
         mLitCI "carbon".toList, mLitCI "emissions".toList,
         mLitCI "energy".toList, mLitCI "water".toList, mLitCI "waste".toList]

/-- One match of the metric pattern, stored as `"{value} {unit}"`. -/
def metricMatchAt (cs : Chars) : Option (String × Chars) :=
  (((numCommaM cs).flatMap (fun p =>
    ((mStarGreedy pyWs) p.2).flatMap (fun q =>
      (mMetricUnit q.2).map (fun r =>
        (String.mk p.1 ++ " " ++ String.mk r.1, r.2))))).head?)

/-- One match of `\b(20\d{2})\b` given the previous character. -/
def yearMatchAt (prev : Option Char) (cs : Chars) :
    Option (String × Option Char × Chars) :=
  let bL := match prev with | none => true | some p => !isWordChar p
  match cs with
  | c1 :: c2 :: c3 :: c4 :: rest =>
    let bR := match rest with | [] => true | r :: _ => !isWordChar r
    if bL && c1 = '2' && c2 = '0' && pyDigit c3 && pyDigit c4 && bR then
      some (String.mk [c1, c2, c3, c4], some c4, rest)
    else none
  | _ => none

/-- One match of `(?:net.zero|carbon.neutral|zero.emissions|100%\s*renewable)`
(IGNORECASE; `.` is any character but a newline). -/
def goalMatchAt (cs : Chars) : Option (String × Chars) :=
  (((mAlts [mSeq (mLitCI "net".toList) (mSeq mDot (mLitCI "zero".toList)),
            mSeq (mLitCI "carbon".toList) (mSeq mDot (mLitCI "neutral".toList)),
            mSeq (mLitCI "zero".toList) (mSeq mDot (mLitCI "emissions".toList)),
            mSeq (mLitCI "100%".toList) (mSeq (mStarGreedy pyWs)
              (mLitCI "renewable".toList))]) cs).head?.map
    (fun p => (String.mk p.1, p.2)))

/-- Python `list(set(...))` as far as membership and cardinality go. -/
def pySet (l : List String) : List String := l.dedup

def extract_quantitative_data (text : String) : QuantPatterns :=
  let cs := text.toList
  { percentages_found := scanAll pctMatchAt cs,
    targets_found := scanAll targetMatchAt cs,
    metrics_found := scanAll metricMatchAt cs,
    years_found := pySet ((scanAllB yearMatchAt cs).filter
      (fun y => decide (2020 ≤ digitsVal y.toList ∧ digitsVal y.toList ≤ 2050))),
    numerical_goals := pySet (scanAll goalMatchAt cs) }

/-! ### Detection strategy v3 -/

def v3_doc_score (page : Page) : ℚ :=
  let docs := discover_documents page
  (if 0 < docs.total_documents_found then
     min ((docs.total_documents_found : ℚ) * 0.1) 0.3
   else 0)
  + (if docs.sustainability_documents.isEmpty then 0
     else (docs.sustainability_documents.length : ℚ) * 0.15)

def v3_quant_score (page : Page) : ℚ :=
  let quant := extract_quantitative_data page.text
  (if quant.percentages_found.isEmpty then 0
   else min ((quant.percentages_found.length : ℚ) * 0.05) 0.2)
  + (if quant.targets_found.isEmpty then 0
     else min ((quant.targets_found.length : ℚ) * 0.1) 0.3)
  + (if quant.numerical_goals.isEmpty then 0
     else min ((quant.numerical_goals.length : ℚ) * 0.08) 0.25)

def v3_enhanced_score (page : Page) : ℚ :=
  min ((detect_esg_content_v2 page).2.sustainability_score
    + v3_doc_score page + v3_quant_score page) 10.0

def v3_confidence (page : Page) : ℚ :=
  let docs := discover_documents page
  let quant := extract_quantitative_data page.text
  min ((detect_esg_content_v2 page).2.confidence_level
    + min ((docs.sustainability_documents.length : ℚ) * 0.1) 0.2
    + min ((quant.targets_found.length : ℚ) * 0.05) 0.1) 1.0

def detect_esg_content_v3 (page : Page) : Bool × Evidence :=
  let v2 := detect_esg_content_v2 page
  let docs := discover_documents page
  let quant := extract_quantitative_data page.text
  let has_esg := decide ((2.5 : ℚ) ≤ v3_enhanced_score page)
    || decide ((0.7 : ℚ) ≤ v3_confidence page) || v2.1
  (has_esg,
   { v2.2 with
     sustainability_score := v3_enhanced_score page,
     confidence_level := v3_confidence page,
     quantitative_data_found := !quant.percentages_found.isEmpty
       || !quant.metrics_found.isEmpty || !quant.numerical_goals.isEmpty,
     targets_or_goals_found := !quant.targets_found.isEmpty
       || !quant.numerical_goals.isEmpty,
     document_discovery := docs,
     quantitative_patterns := quant })

/-! ### Detection strategy v4: NLP analysis

The NLTK primitives the source imports (sentence tokenizer and VADER
sentiment analyzer) are external collaborators, modelled as oracles. -/

structure NlpTools where
  compound : String → ℚ
  sentTokenize : String → List String

/-- Oracle instance with the behaviour NLTK exhibits on empty input. -/
def trivialTools : NlpTools := { compound := fun _ => 0, sentTokenize := fun _ => [] }

def nlp_esg_keywords : List String :=
  ["sustainability", "environmental", "social", "governance", "esg",
   "carbon", "climate", "renewable", "green", "responsible", "ethical"]

def contains_esg_keywords (text : String) : Bool :=
  nlp_esg_keywords.any (fun k => pyContains (pyLower text) k)

/-- Tail of `\b(\d+(?:\.\d+)?)\s*(?:tons?|tonnes?)\s*(?:of\s*)?(?:co2|carbon|emissions?)\b`
after the captured number. -/
def entEnv1Tail : RMatch :=
  mSeq (mStarGreedy pyWs)
    (mSeq (mAlts [mSeq (mLitCI "ton".toList) (mOpt (mLitCI "s".toList)),
                  mSeq (mLitCI "tonne".toList) (mOpt (mLitCI "s".toList))])
      (mSeq (mStarGreedy pyWs)
        (mSeq (mOpt (mSeq (mLitCI "of".toList) (mStarGreedy pyWs)))
          (mAlts [mLitCI "co2".toList, mLitCI "carbon".toList,
                  mSeq (mLitCI "emission".toList) (mOpt (mLitCI "s".toList))]))))

/-- Tail of `\b(\d+(?:\.\d+)?)\s*(?:mwh|kwh|gwh)\b`. -/
def entEnv2Tail : RMatch :=
  mSeq (mStarGreedy pyWs)
    (mAlts [mLitCI "mwh".toList, mLitCI "kwh".toList, mLitCI "gwh".toList])

/-- Tail of `\b(\d+(?:\.\d+)?)\s*(?:percent|%)\s*(?:reduction|renewable|clean)\b`. -/
def entEnv3Tail : RMatch :=
  mSeq (mStarGreedy pyWs)
    (mSeq (mAlts [mLitCI "percent".toList, mLitCI "%".toList])
      (mSeq (mStarGreedy pyWs)
        (mAlts [mLitCI "reduction".toList, mLitCI "renewable".toList,
                mLitCI "clean".toList])))

/-- One environmental-metric match: leading word boundary, captured number,
the given pattern tail, trailing word boundary. -/
def envMatchAt (tail : RMatch) (prev : Option Char) (cs : Chars) :
    Option (String × Option Char × Chars) :=
  let bL := match prev with | none => true | some p => !isWordChar p
  if bL then
    ((((numM cs).flatMap (fun p =>
        (tail p.2).map (fun q => (p.1, p.1 ++ q.1, q.2)))).filter
      (fun t => match t.2.2 with | [] => true | c :: _ => !isWordChar c)).head?.map
      (fun t => (String.mk t.1, t.2.1.getLast?, t.2.2)))
  else none

def social_keywords : List String :=
  ["diversity", "inclusion", "safety", "community", "employee", "human rights"]

/-- One match of `\b{keyword}\b` (IGNORECASE); the stored value is the keyword. -/
def socialMatchAt (kw : Chars) (prev : Option Char) (cs : Chars) :
    Option (String × Option Char × Chars) :=
  let bL := match prev with | none => true | some p => !isWordChar p
  if bL then
    match mLitCI kw cs with
    | [] => none
    | p :: _ =>
      if (match p.2 with | [] => true | c :: _ => !isWordChar c) then
        some (String.mk kw, p.1.getLast?, p.2)
      else none
  else none

/-- Values of the ESG entities extracted by `_extract_esg_entities`
(environmental metric captures, then one entry per social-keyword
occurrence), capped at 20. -/
def extract_esg_entities (text : String) : List String :=
  let cs := text.toList
  let env := scanAllB (envMatchAt entEnv1Tail) cs
    ++ scanAllB (envMatchAt entEnv2Tail) cs
    ++ scanAllB (envMatchAt entEnv3Tail) cs
  let social := social_keywords.flatMap (fun kw => scanAllB (socialMatchAt kw.toList) cs)
  (env ++ social).take 20

def esg_topic_defs : List (String × List String) :=
  [("Climate Change", ["climate", "global warming", "greenhouse gas", "carbon footprint"]),
   ("Renewable Energy", ["renewable", "solar", "wind", "clean energy", "green energy"]),
   ("Waste Management", ["waste", "recycling", "circular economy", "zero waste"]),
   ("Water Conservation", ["water", "conservation", "sustainable water"]),
   ("Diversity & Inclusion", ["diversity", "inclusion", "equal opportunity", "gender equality"]),
   ("Employee Safety", ["safety", "workplace safety", "occupational health"]),
   ("Corporate Governance", ["governance", "board", "ethics", "compliance", "transparency"]),
   ("Supply Chain", ["supply chain", "supplier", "responsible sourcing"])]

/-- Stable insertion in decreasing relevance order (matching Python's stable
`list.sort(key=relevance, reverse=True)`). -/
def insertTopicDesc (x : String × Nat × ℚ) :
    List (String × Nat × ℚ) → List (String × Nat × ℚ)
  | [] => [x]
  | y :: ys => if y.2.2 < x.2.2 then x :: y :: ys else y :: insertTopicDesc x ys

def identify_esg_topics (text : String) : List (String × Nat × ℚ) :=
  let tl := pyLower text
  let hits : List (String × Nat × ℚ) := esg_topic_defs.filterMap (fun td =>
    let mcount := (td.2.filter (fun k => pyContains tl k)).length
    if 0 < mcount then some (td.1, mcount, (mcount : ℚ) / (td.2.length : ℚ))
    else none)
  (hits.foldl (fun acc x => insertTopicDesc x acc) []).take 10

def strong_commitment_words : List String :=
  ["commit", "pledge", "promise", "guarantee", "ensure", "will achieve"]

def moderate_commitment_words : List String :=
  ["aim", "target", "goal", "strive", "work towards", "plan to"]

def weak_commitment_words : List String :=
  ["consider", "explore", "may", "might", "could", "potentially"]

def analyze_commitment_strength (text : String) : ℚ :=
  let tl := pyLower text
  let s := (strong_commitment_words.filter (fun w => pyContains tl w)).length
  let m := (moderate_commitment_words.filter (fun w => pyContains tl w)).length
  let w := (weak_commitment_words.filter (fun w => pyContains tl w)).length
  let total := s + m + w
  if total = 0 then 0
  else min (((s : ℚ) * 1.0 + (m : ℚ) * 0.6 + (w : ℚ) * 0.2) / (total : ℚ)) 1.0

def forward_indicators : List String :=
  ["by 2030", "by 2050", "will", "plan to", "target", "goal", "future", "next year"]

def extract_forward_looking_statements (sentences : List String) : List String :=
  ((sentences.filter (fun s =>
      forward_indicators.any (fun i => pyContains (pyLower s) i)
      && contains_esg_keywords s)).map pyStrip).take 5

def verification_indicators : List String :=
  ["verified", "audited", "certified", "accredited", "validated"]

def metric_indicators : List String :=
  ["tons", "kwh", "percent", "%", "million", "billion"]

def timeframe_indicators : List String :=
  ["2030", "2050", "annual", "quarterly", "monthly"]

def framework_indicators : List String :=
  ["gri", "sasb", "tcfd", "ungc", "iso 14001", "science based targets"]

/-- Fraction of a category's indicator list present in the text. -/
def catScore (tl : String) (l : List String) : ℚ :=
  ((l.filter (fun i => pyContains tl i)).length : ℚ) / (l.length : ℚ)

structure CredibilityIndicators where
  verification : ℚ
  specific_metrics : ℚ
  timeframes : ℚ
  standards_frameworks : ℚ
  overall : ℚ
  has_verification : Bool
  has_specific_metrics : Bool

def analyze_credibility_indicators (text : String) : CredibilityIndicators :=
  let tl := pyLower text
  let v := catScore tl verification_indicators
  let sm := catScore tl metric_indicators
  let tf := catScore tl timeframe_indicators
  let fw := catScore tl framework_indicators
  { verification := v, specific_metrics := sm, timeframes := tf,
    standards_frameworks := fw, overall := (v + sm + tf + fw) / 4,
    has_verification := decide (0 < v), has_specific_metrics := decide (0 < sm) }

structure NlpResults where
  esg_specific_sentiment : ℚ
  named_entities : List String
  esg_topics_identified : List (String × Nat × ℚ)
  commitment_strength : ℚ
  forward_looking_statements : List String
  credibility : CredibilityIndicators

def perform_nlp_analysis (tools : NlpTools) (text : String) : NlpResults :=
  let sentences := tools.sentTokenize text
  let esg_sentences := sentences.filter contains_esg_keywords
  { esg_specific_sentiment :=
      if esg_sentences.isEmpty then 0
      else (esg_sentences.map tools.compound).sum / (esg_sentences.length : ℚ),
    named_entities := extract_esg_entities text,
    esg_topics_identified := identify_esg_topics text,
    commitment_strength := analyze_commitment_strength text,
    forward_looking_statements := extract_forward_looking_statements sentences,
    credibility := analyze_credibility_indicators text }

def calculate_nlp_score (nr : NlpResults) : ℚ :=
  let s1 : ℚ := if 0.1 < nr.esg_specific_sentiment then
      min (nr.esg_specific_sentiment * 0.5) 0.5 else 0
  let s2 : ℚ := min ((nr.esg_topics_identified.length : ℚ) * 0.1) 0.8
  let s3 : ℚ := nr.commitment_strength * 0.6
  let s4 : ℚ := nr.credibility.overall * 0.4
  min (s1 + s2 + s3 + s4) 2.0

def calculate_nlp_confidence (nr : NlpResults) : ℚ :=
  let c1 : ℚ := min ((nr.forward_looking_statements.length : ℚ) * 0.05) 0.15
  let c2 : ℚ := min ((nr.named_entities.length : ℚ) * 0.01) 0.1
  let c3 : ℚ := if nr.credibility.has_verification then 0.1 else 0
  let c4 : ℚ := if nr.credibility.has_specific_metrics then 0.05 else 0
  min (c1 + c2 + c3 + c4) 0.3

def v4_score (tools : NlpTools) (page : Page) : ℚ :=
  min ((detect_esg_content_v3 page).2.sustainability_score
    + calculate_nlp_score (perform_nlp_analysis tools page.text)) 10.0

def v4_confidence (tools : NlpTools) (page : Page) : ℚ :=
  min ((detect_esg_content_v3 page).2.confidence_level
    + calculate_nlp_confidence (perform_nlp_analysis tools page.text)) 1.0

/-- Version 4 detection.  `nlpAvailable` models the module-level
`NLP_AVAILABLE` flag: when false, v4 delegates wholly to v3. -/
def detect_esg_content_v4 (nlpAvailable : Bool) (tools : NlpTools) (page : Page) :
    Bool × Evidence :=
  if !nlpAvailable then detect_esg_content_v3 page
  else
    let v3 := detect_esg_content_v3 page
    let nr := perform_nlp_analysis tools page.text
    let has_esg := decide ((3.0 : ℚ) ≤ v4_score tools page)
      || decide ((0.75 : ℚ) ≤ v4_confidence tools page)
      || decide ((0.7 : ℚ) ≤ nr.commitment_strength) || v3.1
    (has_esg,
     { v3.2 with sustainability_score := v4_score tools page,
                 confidence_level := v4_confidence tools page,
                 nlp_commitment_strength := nr.commitment_strength })

/-- Version dispatch of `_detect_esg_content`. -/
def detect_esg_content (version : String) (nlpAvailable : Bool) (tools : NlpTools)
    (page : Page) : Bool × Evidence :=
  if version = "4.0" then detect_esg_content_v4 nlpAvailable tools page
  else if version = "3.0" then detect_esg_content_v3 page
  else if version = "2.0" then detect_esg_content_v2 page
  else detect_esg_content_v1 page

/-! ### URL parsing (CPython 3.11 `urllib.parse` fragment used by the crawler)

Only the checks the interpreter performs on every input are modelled; the
additional 3.11 validation of bracketed IPv6 hosts and of non-ASCII netlocs is
outside this embedding, and every theorem about parsing success therefore
restricts itself to bracket-free ASCII netlocs. -/

structure UrlParts where
  scheme : Chars
  netloc : Chars
  path : Chars
  params : Chars
  query : Chars
  fragment : Chars

def c0ControlOrSpace (c : Char) : Bool := c.toNat ≤ 32

def tabCrLf (c : Char) : Bool := c = '\t' || c = '\r' || c = '\n'

/-- WHATWG cleanup performed by `urlsplit`: strip leading C0 controls and
spaces, then remove every tab, CR and LF. -/
def cleanUrl (cs : Chars) : Chars :=
  (cs.dropWhile c0ControlOrSpace).filter (fun c => !tabCrLf c)

def schemeChar (c : Char) : Bool :=
  c.isAlpha || c.isDigit || c = '+' || c = '-' || c = '.'

def netlocDelim (c : Char) : Bool := c = '/' || c = '?' || c = '#'

/-- Text split at the first occurrence of a character. -/
def splitFirst (ch : Char) : Chars → Chars × Option Chars
  | [] => ([], none)
  | c :: r =>
    if c = ch then ([], some r)
    else
      let p := splitFirst ch r
      (c :: p.1, p.2)

/-- Scheme detection of `urlsplit`: the text before the first colon — when
that prefix is a nonempty run of scheme characters led by an ASCII letter —
becomes the lower-cased scheme (CPython: `i = url.find(':')`, the `i > 0`
test, the `scheme_chars` loop and the leading `isalpha` test). -/
def splitScheme (u : Chars) : Chars × Chars :=
  match splitFirst ':' u with
  | (pre, some rest) =>
    if 0 < pre.length
        && (match u.head? with | some c => c.isAlpha | none => false)
        && pre.all schemeChar then
      (pre.map Char.toLower, rest)
    else ([], u)
  | (_, none) => ([], u)

/-- Text split at the last occurrence of a character. -/
def splitLast (ch : Char) (u : Chars) : Option (Chars × Chars) :=
  match splitFirst ch u.reverse with
  | (_, none) => none
  | (brev, some arev) => some (arev.reverse, brev.reverse)

/-- CPython `_splitparams`: path parameters are split at the first semicolon
of the last path segment. -/
def splitparams (u : Chars) : Chars × Chars :=
  match splitLast '/' u with
  | some (a, b) =>
    match splitFirst ';' b with
    | (t, some rest) => (a ++ '/' :: t, rest)
    | (_, none) => (u, [])
  | none =>
    match splitFirst ';' u with
    | (t, some rest) => (t, rest)
    | (_, none) => (u, [])

/-- Fragment split of `urlsplit`: `if '#' in url: url, fragment = url.split('#', 1)`. -/
def fragSplit (u : Chars) : Chars × Chars :=
  match splitFirst '#' u with
  | (a, some b) => (a, b)
  | (a, none) => (a, [])

/-- Query split of `urlsplit`: `if '?' in url: url, query = url.split('?', 1)`. -/
def querySplit (u : Chars) : Chars × Chars :=
  match splitFirst '?' u with
  | (a, some b) => (a, b)
  | (a, none) => (a, [])

/-- The mismatched-square-bracket test that makes `urlsplit` raise
`ValueError("Invalid IPv6 URL")`. -/
def bracketMismatch (netloc : Chars) : Bool :=
  ('[' ∈ netloc && ']' ∉ netloc) || (']' ∈ netloc && '[' ∉ netloc)

/-- CPython 3.11 `urlsplit` (without path-parameter splitting).  The only
modelled failure is the mismatched-bracket `ValueError`. -/
def urlsplitE (u0 : Chars) : Except String UrlParts :=
  let u1 := cleanUrl u0
  let sp := splitScheme u1
  let nl :=
    if ['/', '/'].isPrefixOf sp.2 then
      ((sp.2.drop 2).takeWhile (fun c => !netlocDelim c),
       (sp.2.drop 2).dropWhile (fun c => !netlocDelim c))
    else ([], sp.2)
  if bracketMismatch nl.1 then
    .error "Invalid IPv6 URL"
  else
    let fr := fragSplit nl.2
    let qr := querySplit fr.1
    .ok { scheme := sp.1, netloc := nl.1, path := qr.1, params := [],
          query := qr.2, fragment := fr.2 }

/-- CPython `urlparse`: `urlsplit` plus path-parameter splitting. -/
def urlparseE (u : Chars) : Except String UrlParts :=
  match urlsplitE u with
  | .error e => .error e
  | .ok p =>
    if ';' ∈ p.path then
      let pp := splitparams p.path
      .ok { p with path := pp.1, params := pp.2 }
    else .ok p

def usesNetloc : List String :=
  ["", "ftp", "http", "gopher", "nntp", "telnet", "imap", "wais", "file",
   "mms", "https", "shttp", "snews", "prospero", "rtsp", "rtsps", "rtspu",
   "rsync", "svn", "svn+ssh", "sftp", "nfs", "git", "git+ssh", "ws", "wss"]

/-- CPython 3.11 `urlunsplit`. -/
def urlunsplit (scheme netloc url query fragment : Chars) : Chars :=
  let url1 :=
    if !netloc.isEmpty
        || (!scheme.isEmpty && usesNetloc.any (fun s => s.toList == scheme)
            && !(['/', '/'].isPrefixOf url)) then
      let u2 := if !url.isEmpty && url.head? ≠ some '/' then '/' :: url else url
      '/' :: '/' :: (netloc ++ u2)
    else url
  let url2 := if !scheme.isEmpty then scheme ++ ':' :: url1 else url1
  let url3 := if !query.isEmpty then url2 ++ '?' :: query else url2
  if !fragment.isEmpty then url3 ++ '#' :: fragment else url3

/-- CPython `urlunparse`: parameters are joined back onto the path with a
semicolon, then `urlunsplit` reassembles. -/
def urlunparse (p : UrlParts) : Chars :=
  let url := if !p.params.isEmpty then p.path ++ ';' :: p.params else p.path
  urlunsplit p.scheme p.netloc url p.query p.fragment

/-! ### URL normalizer (`_normalize_url`) -/

def ensureScheme (u : String) : String :=
  if pyStartsWith u "http://" || pyStartsWith u "https://" then u else "https://" ++ u

/-- The netloc substring `_splitnetloc` isolates before `urlsplit`'s bracket
check can reject it. -/
def raw_netloc (u : String) : Chars :=
  let u1 := cleanUrl (ensureScheme u).toList
  let sp := splitScheme u1
  if ['/', '/'].isPrefixOf sp.2 then
    (sp.2.drop 2).takeWhile (fun c => !netlocDelim c)
  else []

/-- Python `path.rstrip('/')`. -/
def rstripSlashes (cs : Chars) : Chars :=
  (cs.reverse.dropWhile (fun c => c = '/')).reverse

/-- The crawler's `_normalize_url`: ensure a scheme, parse, lower-case the
netloc, strip trailing path slashes (an emptied path becomes `/`), keep
params and query, drop the fragment, reassemble.  The `Except` layer carries
the `ValueError` the parse can raise. -/
def normalize_url (u : String) : Except String String :=
  match urlparseE (ensureScheme u).toList with
  | .error e => .error e
  | .ok p =>
    let stripped := rstripSlashes p.path
    let path2 := if stripped.isEmpty then ['/'] else stripped
    .ok (String.mk (urlunparse
      { scheme := p.scheme, netloc := p.netloc.map Char.toLower, path := path2,
        params := p.params, query := p.query, fragment := [] }))

/-! ### Link extraction and pattern filters -/

/-- The crawler's `_is_same_domain`: lower-cased netloc equality, false on any
parsing exception. -/
def is_same_domain (link base : String) : Bool :=
  match urlparseE link.toList, urlparseE base.toList with
  | .ok a, .ok b => a.netloc.map Char.toLower == b.netloc.map Char.toLower
  | _, _ => false

/-- The crawler's `_extract_links`.  The `urljoin` collaborator (`urllib`'s
relative-reference resolution, which the extracted property does not depend
on) is an explicit function argument. -/
def extract_links (ujoin : String → String → String) (page : Page)
    (base_url : String) : List String :=
  let links := page.anchors.filterMap (fun a =>
    let href := pyStrip a.href
    if href.toList.isEmpty || pyStartsWith href "#" || pyStartsWith href "javascript:"
        || pyStartsWith href "mailto:" || pyStartsWith href "tel:" then none
    else
      let absolute := ujoin base_url href
      if (pyStartsWith absolute "http://" || pyStartsWith absolute "https://")
          && is_same_domain absolute base_url then
        some absolute
      else none)
  links.dedup

/-- The 13 regex patterns of `self.esg_url_patterns` (all literal, so
`re.search` coincides with substring search). -/
def esg_url_patterns : List String :=
  ["/sustainability", "/esg", "/csr", "/corporate-responsibility",
   "/environmental", "/social-responsibility", "/governance",
   "/annual-report", "/impact-report", "/investor-relations",
   "/responsibility", "/climate", "/carbon"]

/-- The crawler's `_filter_esg_links`. -/
def filter_esg_links (links : List String) : List String :=
  links.filter (fun link => esg_url_patterns.any (fun pat => pyContains (pyLower link) pat))

/-- The 11 patterns hard-coded locally in `_detect_esg_url_patterns`. -/
def base_esg_patterns : List String :=
  ["/sustainability", "/esg", "/csr", "/corporate-responsibility",
   "/environmental", "/social-responsibility", "/governance",
   "/annual-report", "/impact-report", "/climate", "/carbon"]

/-- The crawler's `_detect_esg_url_patterns`. -/
def detect_esg_url_patterns (base_url : String) : List String :=
  base_esg_patterns.filter (fun pat => pyContains (pyLower base_url) pat)

/-! ### Analysis pipeline (`analyze_company_website`, `batch_analyze_companies`)

The HTTP layer is an oracle `fetch` mapping a URL to either a successful
response (status, content type, parsed page) or the message of the raised
exception (timeouts included, as `_analyze_website_structure` catches both
`asyncio.TimeoutError` and `Exception` into an inaccessible result). -/

structure FetchOk where
  status : Nat
  contentType : String
  page : Page

/-- Fields of `WebsiteAnalysis` that the claims speak about. -/
structure WebsiteAnalysis where
  base_url : String
  is_accessible : Bool
  status_code : Option Nat := none
  error_message : Option String := none

/-- The crawler's `_analyze_website_structure`: normalize, fetch, and parse,
catching every failure into an inaccessible analysis paired with the empty
soup. -/
def analyze_website_structure (fetch : String → Except String FetchOk)
    (base_url : String) : WebsiteAnalysis × Page :=
  match normalize_url base_url with
  | .error e =>
    ({ base_url := base_url, is_accessible := false, error_message := some e }, emptyPage)
  | .ok nurl =>
    match fetch nurl with
    | .error e =>
      ({ base_url := base_url, is_accessible := false, error_message := some e }, emptyPage)
    | .ok r =>
      if r.status ≠ 200 then
        ({ base_url := nurl, is_accessible := false, status_code := some r.status,
           error_message := some ("HTTP " ++ toString r.status) }, emptyPage)
      else
        ({ base_url := nurl, is_accessible := true, status_code := some r.status }, r.page)

/-- The fallible prefix of `_analyze_website_structure` (normalize then
fetch); a claim about "fetch or parse raises" is a claim about this value
being an error. -/
def fetch_phase (fetch : String → Except String FetchOk) (url : String) :
    Except String FetchOk :=
  match normalize_url url with
  | .error e => .error e
  | .ok nurl => fetch nurl

/-- Result record (`ESGReportAnalysisResult`) fields the claims speak about.
On the error path of `analyze_company_website` the evidence field is left at
its `None` default. -/
structure ESGResult where
  company_website : String
  website_analysis : WebsiteAnalysis
  has_esg_reports : Bool
  crawling_evidence : Option Evidence

/-- Detection stage of `analyze_company_website` (lines building `has_esg_reports`
and attaching `url_patterns_found` to the evidence). -/
def analyze_from_page (version : String) (nlpAvailable : Bool) (tools : NlpTools)
    (page : Page) (company_website : String) : Bool × Evidence :=
  let de := detect_esg_content version nlpAvailable tools page
  (de.1, { de.2 with url_patterns_found := detect_esg_url_patterns company_website })

def analyze_company_website (fetch : String → Except String FetchOk)
    (version : String) (nlpAvailable : Bool) (tools : NlpTools)
    (url : String) : ESGResult :=
  let wp := analyze_website_structure fetch url
  let de := analyze_from_page version nlpAvailable tools wp.2 url
  { company_website := url,
    website_analysis := wp.1,
    has_esg_reports := de.1,
    crawling_evidence := some de.2 }

/-- The crawler's `batch_analyze_companies`: one task per website; each task
is the total function `analyze_company_website` (its own exception handler),
and the surrounding `isinstance(result, Exception)` conversion is the
identity on values. -/
def batch_analyze_companies (fetch : String → Except String FetchOk)
    (version : String) (nlpAvailable : Bool) (tools : NlpTools)
    (company_websites : List String) : List ESGResult :=
  company_websites.map (analyze_company_website fetch version nlpAvailable tools)

/-! ## Claims -/

/-- C1: for every fixed parsed page, the v2 detection decision implies the v3
decision, and the v3 decision implies the v4 decision, both when the NLP
capability is available and when it is not — each version's decision keeps
the prior version's decision as an OR branch. -/
theorem claim_C1_version_monotonicity (page : Page) (nlpAvailable : Bool) (tools : NlpTools) :
    ((detect_esg_content_v2 page).1 = true → (detect_esg_content_v3 page).1 = true)
    ∧ ((detect_esg_content_v3 page).1 = true →
        (detect_esg_content_v4 nlpAvailable tools page).1 = true) := by
  constructor
  · intro h
    simp only [detect_esg_content_v3, h, Bool.or_true]
  · intro h
    cases nlpAvailable with
    | false => simpa only [detect_esg_content_v4, Bool.not_false, if_true] using h
    | true => simp [detect_esg_content_v4, h]

/-- C1 witness page: four high-impact keywords give a v2 score of 2.4 ≥ 2.0,
so the v2 decision is positive and monotonicity propagates it to v3 and v4. -/
def monoPage : Page :=
  { text := "sustainability report carbon footprint net zero climate action",
    anchors := [], navTexts := [], title := none }

theorem claim_C1_version_monotonicity_witness :
    (detect_esg_content_v2 monoPage).1 = true
    ∧ (detect_esg_content_v3 monoPage).1 = true
    ∧ (detect_esg_content_v4 true trivialTools monoPage).1 = true
    ∧ (detect_esg_content_v4 false trivialTools monoPage).1 = true := by
  have h2 : (detect_esg_content_v2 monoPage).1 = true := by with_unfolding_all decide
  have h3 := (claim_C1_version_monotonicity monoPage true trivialTools).1 h2
  exact ⟨h2, h3, (claim_C1_version_monotonicity monoPage true trivialTools).2 h3,
    (claim_C1_version_monotonicity monoPage false trivialTools).2 h3⟩

/-- C10: the detection verdict and the reported score and confidence depend
only on the parsed page (and strategy inputs), never on the input URL string;
the `url_patterns_found` evidence field is a function of the URL alone and
feeds no decision. -/
theorem claim_C10_url_pattern_independence (version : String) (nlpAvailable : Bool)
    (tools : NlpTools) (page : Page) (u1 u2 : String) :
    (analyze_from_page version nlpAvailable tools page u1).1
      = (analyze_from_page version nlpAvailable tools page u2).1
    ∧ (analyze_from_page version nlpAvailable tools page u1).2.sustainability_score
      = (analyze_from_page version nlpAvailable tools page u2).2.sustainability_score
    ∧ (analyze_from_page version nlpAvailable tools page u1).2.confidence_level
      = (analyze_from_page version nlpAvailable tools page u2).2.confidence_level
    ∧ ∀ u : String,
        (analyze_from_page version nlpAvailable tools page u).2.url_patterns_found
          = detect_esg_url_patterns u :=
  ⟨rfl, rfl, rfl, fun _ => rfl⟩

/-- The page of the spec's worked example: its extracted text is exactly
`"Our Sustainability Report 2023 targets net zero by 2030."`. -/
def c4page : Page :=
  { text := "Our Sustainability Report 2023 targets net zero by 2030.",
    anchors := [], navTexts := [], title := none }

/-- C4 counterexample: on the example page the v3 decision is `false`, not
`true` as claimed — the v2 score is 1.5 (< 2.0), the v3 enhanced score is
1.58 (< 2.5) and the confidence is 0.5 (< 0.7). -/
theorem claim_C4_counterexample : (detect_esg_content_v3 c4page).1 = false := by
  with_unfolding_all decide

/-- C4 amended: on the example page, v3 finds the high-impact keyword
"sustainability report", the numerical goal "net zero", and year matches
"2023" and "2030" (both within the inclusive [2020, 2050] filter), but its
decision is `has_esg = false`. -/
theorem claim_C4_example_page :
    ("sustainability report", "high") ∈ (detect_esg_content_v3 c4page).2.keywords_found
    ∧ "net zero" ∈ (detect_esg_content_v3 c4page).2.quantitative_patterns.numerical_goals
    ∧ "2023" ∈ (detect_esg_content_v3 c4page).2.quantitative_patterns.years_found
    ∧ "2030" ∈ (detect_esg_content_v3 c4page).2.quantitative_patterns.years_found
    ∧ (detect_esg_content_v3 c4page).1 = false := by
  with_unfolding_all decide

/-- C9 counterexample: the URL `https://x.com/investor-relations` is kept by
the 13-pattern link filter but flagged by no pattern of the base-URL check,
so "flagged iff matched by the link filter" fails. -/
theorem claim_C9_counterexample :
    filter_esg_links ["https://x.com/investor-relations"]
      = ["https://x.com/investor-relations"]
    ∧ detect_esg_url_patterns "https://x.com/investor-relations" = [] := by
  with_unfolding_all decide

/-- C9 amended: the link filter tests a fixed list of 13 case-insensitive
path-fragment patterns, while the base-URL check uses its own 11-pattern
sublist (missing `/investor-relations` and `/responsibility`); every URL the
base-URL check flags is also kept by the link filter, but not conversely. -/
theorem claim_C9_pattern_lists :
    esg_url_patterns.length = 13
    ∧ base_esg_patterns.length = 11
    ∧ (∀ p ∈ base_esg_patterns, p ∈ esg_url_patterns)
    ∧ ∀ url : String, detect_esg_url_patterns url ≠ [] →
        filter_esg_links [url] = [url] := by
  have hsub : ∀ p ∈ base_esg_patterns, p ∈ esg_url_patterns := by decide
  refine ⟨rfl, rfl, hsub, ?_⟩
  intro url h
  have hmem : ∃ p ∈ base_esg_patterns, pyContains (pyLower url) p = true := by
    by_contra hc
    push_neg at hc
    exact h (List.filter_eq_nil_iff.mpr hc)
  obtain ⟨p, hp, hmatch⟩ := hmem
  have hany : esg_url_patterns.any (fun pat => pyContains (pyLower url) pat) = true :=
    List.any_eq_true.mpr ⟨p, hsub p hp, hmatch⟩
  show List.filter _ [url] = [url]
  simp [List.filter, hany]

theorem claim_C9_pattern_lists_witness :
    detect_esg_url_patterns "https://x.com/esg" ≠ []
    ∧ filter_esg_links ["https://x.com/esg"] = ["https://x.com/esg"] :=
  ⟨by with_unfolding_all decide,
   claim_C9_pattern_lists.2.2.2 "https://x.com/esg" (by with_unfolding_all decide)⟩

/-! ### Helper lemmas: behaviour on the empty page -/

theorem perform_nlp_empty (tools : NlpTools) (h : tools.sentTokenize "" = []) :
    perform_nlp_analysis tools "" = perform_nlp_analysis trivialTools "" := by
  unfold perform_nlp_analysis
  rw [h]
  rfl

theorem detect_v4_empty_eq (tools : NlpTools) (h : tools.sentTokenize "" = []) :
    detect_esg_content_v4 true tools emptyPage
      = detect_esg_content_v4 true trivialTools emptyPage := by
  have e : perform_nlp_analysis tools emptyPage.text
      = perform_nlp_analysis trivialTools emptyPage.text := by
    show perform_nlp_analysis tools "" = perform_nlp_analysis trivialTools ""
    exact perform_nlp_empty tools h
  unfold detect_esg_content_v4 v4_score v4_confidence
  rw [e]

theorem nlp_score_le_two (nr : NlpResults) : calculate_nlp_score nr ≤ 2.0 := by
  unfold calculate_nlp_score
  exact min_le_right _ _

theorem nlp_confidence_le (nr : NlpResults) : calculate_nlp_confidence nr ≤ 0.3 := by
  unfold calculate_nlp_confidence
  exact min_le_right _ _

theorem commitment_strength_empty :
    analyze_commitment_strength emptyPage.text = 0 := by
  with_unfolding_all decide

theorem v4_avail_empty_false (tools : NlpTools) :
    (detect_esg_content_v4 true tools emptyPage).1 = false := by
  have hs3 : (detect_esg_content_v3 emptyPage).2.sustainability_score = 0 := by
    with_unfolding_all decide
  have hc3 : (detect_esg_content_v3 emptyPage).2.confidence_level = 0.3 := by
    with_unfolding_all decide
  have hv3 : (detect_esg_content_v3 emptyPage).1 = false := by
    with_unfolding_all decide
  have hscore : v4_score tools emptyPage < 3.0 := by
    unfold v4_score
    rw [hs3]
    calc min ((0 : ℚ) + calculate_nlp_score (perform_nlp_analysis tools emptyPage.text)) 10.0
        ≤ 0 + calculate_nlp_score (perform_nlp_analysis tools emptyPage.text) :=
          min_le_left _ _
      _ ≤ 0 + 2.0 := by
          exact add_le_add_left (nlp_score_le_two _) 0
      _ < 3.0 := by norm_num
  have hconf : v4_confidence tools emptyPage < 0.75 := by
    unfold v4_confidence
    rw [hc3]
    calc min ((0.3 : ℚ) + calculate_nlp_confidence (perform_nlp_analysis tools emptyPage.text)) 1.0
        ≤ 0.3 + calculate_nlp_confidence (perform_nlp_analysis tools emptyPage.text) :=
          min_le_left _ _
      _ ≤ 0.3 + 0.3 := add_le_add_left (nlp_confidence_le _) 0.3
      _ < 0.75 := by norm_num
  have hpc : (perform_nlp_analysis tools emptyPage.text).commitment_strength = 0 := by
    show analyze_commitment_strength emptyPage.text = 0
    exact commitment_strength_empty
  show (detect_esg_content_v4 true tools emptyPage).1 = false
  unfold detect_esg_content_v4
  simp only [Bool.not_true, Bool.false_eq_true, if_false]
  rw [decide_eq_false (not_le.mpr hscore), decide_eq_false (not_le.mpr hconf), hpc,
    decide_eq_false (by norm_num : ¬ ((0.7 : ℚ) ≤ 0)), hv3]
  rfl

theorem detect_empty_false (version : String) (nlpAvailable : Bool) (tools : NlpTools) :
    (detect_esg_content version nlpAvailable tools emptyPage).1 = false := by
  unfold detect_esg_content
  split
  · cases nlpAvailable with
    | false =>
      exact (by with_unfolding_all decide : (detect_esg_content_v3 emptyPage).1 = false)
    | true => exact v4_avail_empty_false tools
  · split
    · with_unfolding_all decide
    · split
      · with_unfolding_all decide
      · with_unfolding_all decide

/-- C5: on empty markup every strategy decides `has_esg = false` with empty
keyword, navigation and title match lists, and v2, v3 and v4 report a
sustainability score of exactly 0 and a confidence level of exactly 0.3 (the
NLP-available v4 case assumes the tokenizer returns no sentences on empty
text, which is NLTK's behaviour). -/
theorem claim_C5_empty_markup :
    ((detect_esg_content_v1 emptyPage).1 = false
      ∧ (detect_esg_content_v1 emptyPage).2.keywords_found = []
      ∧ (detect_esg_content_v1 emptyPage).2.navigation_matches = []
      ∧ (detect_esg_content_v1 emptyPage).2.title_matches = [])
    ∧ ((detect_esg_content_v2 emptyPage).1 = false
      ∧ (detect_esg_content_v2 emptyPage).2.keywords_found = []
      ∧ (detect_esg_content_v2 emptyPage).2.navigation_matches = []
      ∧ (detect_esg_content_v2 emptyPage).2.title_matches = []
      ∧ (detect_esg_content_v2 emptyPage).2.sustainability_score = 0
      ∧ (detect_esg_content_v2 emptyPage).2.confidence_level = 0.3)
    ∧ ((detect_esg_content_v3 emptyPage).1 = false
      ∧ (detect_esg_content_v3 emptyPage).2.keywords_found = []
      ∧ (detect_esg_content_v3 emptyPage).2.navigation_matches = []
      ∧ (detect_esg_content_v3 emptyPage).2.title_matches = []
      ∧ (detect_esg_content_v3 emptyPage).2.sustainability_score = 0
      ∧ (detect_esg_content_v3 emptyPage).2.confidence_level = 0.3)
    ∧ (∀ tools : NlpTools,
        detect_esg_content_v4 false tools emptyPage = detect_esg_content_v3 emptyPage)
    ∧ (∀ tools : NlpTools, tools.sentTokenize "" = [] →
        (detect_esg_content_v4 true tools emptyPage).1 = false
        ∧ (detect_esg_content_v4 true tools emptyPage).2.keywords_found = []
        ∧ (detect_esg_content_v4 true tools emptyPage).2.navigation_matches = []
        ∧ (detect_esg_content_v4 true tools emptyPage).2.title_matches = []
        ∧ (detect_esg_content_v4 true tools emptyPage).2.sustainability_score = 0
        ∧ (detect_esg_content_v4 true tools emptyPage).2.confidence_level = 0.3) := by
  refine ⟨by with_unfolding_all decide, by with_unfolding_all decide,
    by with_unfolding_all decide, fun tools => rfl, fun tools h => ?_⟩
  rw [detect_v4_empty_eq tools h]
  with_unfolding_all decide

theorem claim_C5_empty_markup_witness :
    trivialTools.sentTokenize "" = []
    ∧ (detect_esg_content_v4 true trivialTools emptyPage).1 = false
    ∧ (detect_esg_content_v4 true trivialTools emptyPage).2.sustainability_score = 0
    ∧ (detect_esg_content_v4 true trivialTools emptyPage).2.confidence_level = 0.3 :=
  ⟨rfl, (claim_C5_empty_markup.2.2.2.2 trivialTools rfl).1,
    (claim_C5_empty_markup.2.2.2.2 trivialTools rfl).2.2.2.2.1,
    (claim_C5_empty_markup.2.2.2.2 trivialTools rfl).2.2.2.2.2⟩

/-! ### C3: error isolation -/

theorem analyze_website_structure_error (fetch : String → Except String FetchOk)
    (url e : String) (h : fetch_phase fetch url = .error e) :
    analyze_website_structure fetch url
      = ({ base_url := url, is_accessible := false, error_message := some e }, emptyPage) := by
  unfold fetch_phase at h
  unfold analyze_website_structure
  cases hnorm : normalize_url url with
  | error e2 =>
    rw [hnorm] at h
    change Except.error e2 = Except.error e at h
    injection h with he
    subst he
    rfl
  | ok nurl =>
    rw [hnorm] at h
    change fetch nurl = Except.error e at h
    cases hf : fetch nurl with
    | error e3 =>
      rw [hf] at h
      injection h with he
      subst he
      dsimp only
      rw [hf]
    | ok r =>
      rw [hf] at h
      cases h

/-- C3: whenever the fetch (or the preceding URL normalization) raises, the
analysis result records `is_accessible = false`, the captured error message,
and `has_esg_reports = false`; and the batch operation returns exactly one
result per target by applying the total per-target analysis, so no per-target
failure escapes as an exception. -/
theorem claim_C3_error_isolation (fetch : String → Except String FetchOk)
    (version : String) (nlpAvailable : Bool) (tools : NlpTools) (url e : String)
    (h : fetch_phase fetch url = .error e) :
    ((analyze_company_website fetch version nlpAvailable tools url).website_analysis.is_accessible
        = false
      ∧ (analyze_company_website fetch version nlpAvailable tools url).website_analysis.error_message
        = some e
      ∧ (analyze_company_website fetch version nlpAvailable tools url).has_esg_reports = false)
    ∧ ∀ urls : List String,
        (batch_analyze_companies fetch version nlpAvailable tools urls).length = urls.length
        ∧ batch_analyze_companies fetch version nlpAvailable tools urls
            = urls.map (analyze_company_website fetch version nlpAvailable tools) := by
  have hws := analyze_website_structure_error fetch url e h
  refine ⟨⟨?_, ?_, ?_⟩, fun urls => ⟨by simp [batch_analyze_companies], rfl⟩⟩
  · show (analyze_website_structure fetch url).1.is_accessible = false
    rw [hws]
  · show (analyze_website_structure fetch url).1.error_message = some e
    rw [hws]
  · show (analyze_from_page version nlpAvailable tools (analyze_website_structure fetch url).2 url).1
        = false
    rw [hws]
    exact detect_empty_false version nlpAvailable tools

def failFetch : String → Except String FetchOk := fun _ => .error "connection failed"

theorem claim_C3_error_isolation_witness :
    fetch_phase failFetch "example.com" = .error "connection failed"
    ∧ (analyze_company_website failFetch "3.0" true trivialTools "example.com").has_esg_reports
        = false := by
  have h : fetch_phase failFetch "example.com" = .error "connection failed" := by
    with_unfolding_all rfl
  exact ⟨h,
    (claim_C3_error_isolation failFetch "3.0" true trivialTools "example.com"
      "connection failed" h).1.2.2⟩

/-! ### C2: score and confidence bounds -/

theorem min_nonneg2 {a b : ℚ} (ha : 0 ≤ a) (hb : 0 ≤ b) : 0 ≤ min a b := le_min ha hb

theorem ite_nonneg {c : Prop} [Decidable c] {a b : ℚ} (ha : 0 ≤ a) (hb : 0 ≤ b) :
    0 ≤ if c then a else b := by split <;> assumption

theorem roundTo_nonneg (n : Nat) (x : ℚ) (hx : 0 ≤ x) : 0 ≤ roundTo n x := by
  unfold roundTo
  apply div_nonneg _ (by positivity : (0:ℚ) ≤ (10:ℚ)^n)
  have h : (0 : ℤ) ≤ ⌊x * 10^n + 1/2⌋ := by
    apply Int.floor_nonneg.mpr
    have : 0 ≤ x * 10^n := mul_nonneg hx (by positivity)
    linarith
  exact_mod_cast h

theorem roundTo_le_int (n : Nat) (x : ℚ) (B : ℤ) (hx : x ≤ (B:ℚ)) :
    roundTo n x ≤ (B:ℚ) := by
  unfold roundTo
  rw [div_le_iff₀ (by positivity : (0:ℚ) < (10:ℚ)^n)]
  have h1 : ⌊x * (10:ℚ)^n + 1/2⌋ ≤ B * (10:ℤ)^n := by
    have h2 : ⌊x * (10:ℚ)^n + 1/2⌋ < B * (10:ℤ)^n + 1 := by
      apply Int.floor_lt.mpr
      have hm : x * (10:ℚ)^n ≤ (B:ℚ) * (10:ℚ)^n :=
        mul_le_mul_of_nonneg_right hx (by positivity)
      push_cast
      linarith
    omega
  calc ((⌊x * (10:ℚ)^n + 1/2⌋ : ℤ) : ℚ) ≤ ((B * (10:ℤ)^n : ℤ) : ℚ) := by exact_mod_cast h1
    _ = (B:ℚ) * (10:ℚ)^n := by push_cast; ring

theorem content_quality_score_nonneg (page : Page) : 0 ≤ content_quality_score page := by
  unfold content_quality_score
  have h1 : 0 ≤ min (0.4:ℚ) ((((v2_high page).length : ℚ)) * 0.1) :=
    min_nonneg2 (by norm_num) (by positivity)
  have h2 : 0 ≤ min (0.3:ℚ) ((((v2_med page).length : ℚ)) * 0.05) :=
    min_nonneg2 (by norm_num) (by positivity)
  have h3 : 0 ≤ min (0.1:ℚ) ((((v2_low page).length : ℚ)) * 0.02) :=
    min_nonneg2 (by norm_num) (by positivity)
  have h4 : 0 ≤ (if v2_quant_found page then (0.15:ℚ) else 0) :=
    ite_nonneg (by norm_num) le_rfl
  have h5 : 0 ≤ (if v2_targets_found page then (0.05:ℚ) else 0) :=
    ite_nonneg (by norm_num) le_rfl
  linarith

theorem overall_score_nonneg (page : Page) : 0 ≤ overall_score page := by
  unfold overall_score
  refine le_min (by norm_num) ?_
  have h1 := content_quality_score_nonneg page
  have h2 : 0 ≤ nav_score page := by unfold nav_score; positivity
  have h3 : 0 ≤ title_score page := by unfold title_score; positivity
  linarith

theorem overall_score_le (page : Page) : overall_score page ≤ 10 := by
  unfold overall_score
  exact le_trans (min_le_left _ _) (by norm_num)

theorem v2_confidence_nonneg (page : Page) : 0 ≤ v2_confidence page := by
  unfold v2_confidence
  refine le_min (by norm_num) ?_
  positivity

theorem v2_confidence_le (page : Page) : v2_confidence page ≤ 1 := by
  unfold v2_confidence
  exact le_trans (min_le_left _ _) (by norm_num)

theorem v2_reported_bounds (page : Page) :
    (0 ≤ (detect_esg_content_v2 page).2.sustainability_score
      ∧ (detect_esg_content_v2 page).2.sustainability_score ≤ 10)
    ∧ (0 ≤ (detect_esg_content_v2 page).2.confidence_level
      ∧ (detect_esg_content_v2 page).2.confidence_level ≤ 1) := by
  have hs : (detect_esg_content_v2 page).2.sustainability_score
      = roundTo 2 (overall_score page) := rfl
  have hc : (detect_esg_content_v2 page).2.confidence_level
      = roundTo 3 (v2_confidence page) := rfl
  rw [hs, hc]
  refine ⟨⟨roundTo_nonneg _ _ (overall_score_nonneg page), ?_⟩,
    ⟨roundTo_nonneg _ _ (v2_confidence_nonneg page), ?_⟩⟩
  · exact_mod_cast roundTo_le_int 2 _ 10 (by exact_mod_cast overall_score_le page)
  · exact_mod_cast roundTo_le_int 3 _ 1 (by exact_mod_cast v2_confidence_le page)

theorem v3_doc_score_nonneg (page : Page) : 0 ≤ v3_doc_score page := by
  unfold v3_doc_score
  have h1 : 0 ≤ (if 0 < (discover_documents page).total_documents_found then
      min (((discover_documents page).total_documents_found : ℚ) * 0.1) 0.3 else 0) :=
    ite_nonneg (min_nonneg2 (by positivity) (by norm_num)) le_rfl
  have h2 : 0 ≤ (if (discover_documents page).sustainability_documents.isEmpty then (0:ℚ)
      else ((discover_documents page).sustainability_documents.length : ℚ) * 0.15) :=
    ite_nonneg le_rfl (by positivity)
  linarith

theorem v3_quant_score_nonneg (page : Page) : 0 ≤ v3_quant_score page := by
  unfold v3_quant_score
  have h1 : 0 ≤ (if (extract_quantitative_data page.text).percentages_found.isEmpty then (0:ℚ)
      else min (((extract_quantitative_data page.text).percentages_found.length : ℚ) * 0.05) 0.2) :=
    ite_nonneg le_rfl (min_nonneg2 (by positivity) (by norm_num))
  have h2 : 0 ≤ (if (extract_quantitative_data page.text).targets_found.isEmpty then (0:ℚ)
      else min (((extract_quantitative_data page.text).targets_found.length : ℚ) * 0.1) 0.3) :=
    ite_nonneg le_rfl (min_nonneg2 (by positivity) (by norm_num))
  have h3 : 0 ≤ (if (extract_quantitative_data page.text).numerical_goals.isEmpty then (0:ℚ)
      else min (((extract_quantitative_data page.text).numerical_goals.length : ℚ) * 0.08) 0.25) :=
    ite_nonneg le_rfl (min_nonneg2 (by positivity) (by norm_num))
  linarith

theorem v3_reported_bounds (page : Page) :
    (0 ≤ (detect_esg_content_v3 page).2.sustainability_score
      ∧ (detect_esg_content_v3 page).2.sustainability_score ≤ 10)
    ∧ (0 ≤ (detect_esg_content_v3 page).2.confidence_level
      ∧ (detect_esg_content_v3 page).2.confidence_level ≤ 1) := by
  have hs : (detect_esg_content_v3 page).2.sustainability_score = v3_enhanced_score page := rfl
  have hc : (detect_esg_content_v3 page).2.confidence_level = v3_confidence page := rfl
  rw [hs, hc]
  have h2 := v2_reported_bounds page
  constructor
  · constructor
    · unfold v3_enhanced_score
      refine le_min ?_ (by norm_num)
      have := v3_doc_score_nonneg page
      have := v3_quant_score_nonneg page
      linarith [h2.1.1]
    · unfold v3_enhanced_score
      exact le_trans (min_le_right _ _) (by norm_num)
  · constructor
    · unfold v3_confidence
      refine le_min ?_ (by norm_num)
      have hd : 0 ≤ min (((discover_documents page).sustainability_documents.length : ℚ) * 0.1) 0.2 :=
        min_nonneg2 (by positivity) (by norm_num)
      have hq : 0 ≤ min (((extract_quantitative_data page.text).targets_found.length : ℚ) * 0.05) 0.1 :=
        min_nonneg2 (by positivity) (by norm_num)
      linarith [h2.2.1]
    · unfold v3_confidence
      exact le_trans (min_le_right _ _) (by norm_num)

theorem commitment_strength_nonneg (text : String) :
    0 ≤ analyze_commitment_strength text := by
  unfold analyze_commitment_strength
  dsimp only
  split
  · exact le_rfl
  · exact min_nonneg2 (div_nonneg (by positivity) (by positivity)) (by norm_num)

theorem credibility_overall_nonneg (text : String) :
    0 ≤ (analyze_credibility_indicators text).overall := by
  have h : ∀ l : List String, 0 ≤ catScore (pyLower text) l := by
    intro l
    unfold catScore
    positivity
  have h1 := h verification_indicators
  have h2 := h metric_indicators
  have h3 := h timeframe_indicators
  have h4 := h framework_indicators
  show 0 ≤ (catScore (pyLower text) verification_indicators
    + catScore (pyLower text) metric_indicators
    + catScore (pyLower text) timeframe_indicators
    + catScore (pyLower text) framework_indicators) / 4
  apply div_nonneg _ (by norm_num)
  linarith

theorem calculate_nlp_score_nonneg (nr : NlpResults)
    (hcommit : 0 ≤ nr.commitment_strength) (hcred : 0 ≤ nr.credibility.overall) :
    0 ≤ calculate_nlp_score nr := by
  unfold calculate_nlp_score
  refine le_min ?_ (by norm_num)
  have h1 : 0 ≤ (if 0.1 < nr.esg_specific_sentiment then
      min (nr.esg_specific_sentiment * 0.5) 0.5 else 0) := by
    split
    · next hgt => exact min_nonneg2 (by nlinarith) (by norm_num)
    · exact le_rfl
  have h2 : 0 ≤ min ((nr.esg_topics_identified.length : ℚ) * 0.1) 0.8 :=
    min_nonneg2 (by positivity) (by norm_num)
  nlinarith

theorem calculate_nlp_confidence_nonneg (nr : NlpResults) :
    0 ≤ calculate_nlp_confidence nr := by
  unfold calculate_nlp_confidence
  refine le_min ?_ (by norm_num)
  have h1 : 0 ≤ min ((nr.forward_looking_statements.length : ℚ) * 0.05) 0.15 :=
    min_nonneg2 (by positivity) (by norm_num)
  have h2 : 0 ≤ min ((nr.named_entities.length : ℚ) * 0.01) 0.1 :=
    min_nonneg2 (by positivity) (by norm_num)
  have h3 : 0 ≤ (if nr.credibility.has_verification then (0.1:ℚ) else 0) :=
    ite_nonneg (by norm_num) le_rfl
  have h4 : 0 ≤ (if nr.credibility.has_specific_metrics then (0.05:ℚ) else 0) :=
    ite_nonneg (by norm_num) le_rfl
  linarith

theorem v4_reported_bounds (tools : NlpTools) (page : Page) :
    (0 ≤ (detect_esg_content_v4 true tools page).2.sustainability_score
      ∧ (detect_esg_content_v4 true tools page).2.sustainability_score ≤ 10)
    ∧ (0 ≤ (detect_esg_content_v4 true tools page).2.confidence_level
      ∧ (detect_esg_content_v4 true tools page).2.confidence_level ≤ 1) := by
  have hs : (detect_esg_content_v4 true tools page).2.sustainability_score
      = v4_score tools page := rfl
  have hc : (detect_esg_content_v4 true tools page).2.confidence_level
      = v4_confidence tools page := rfl
  rw [hs, hc]
  have h3 := v3_reported_bounds page
  have hcommit : 0 ≤ (perform_nlp_analysis tools page.text).commitment_strength := by
    show 0 ≤ analyze_commitment_strength page.text
    exact commitment_strength_nonneg page.text
  have hcred : 0 ≤ (perform_nlp_analysis tools page.text).credibility.overall := by
    show 0 ≤ (analyze_credibility_indicators page.text).overall
    exact credibility_overall_nonneg page.text
  have hns := calculate_nlp_score_nonneg _ hcommit hcred
  have hnc := calculate_nlp_confidence_nonneg (perform_nlp_analysis tools page.text)
  refine ⟨⟨?_, ?_⟩, ?_, ?_⟩
  · unfold v4_score
    refine le_min ?_ (by norm_num)
    linarith [h3.1.1]
  · unfold v4_score
    exact le_trans (min_le_right _ _) (by norm_num)
  · unfold v4_confidence
    refine le_min ?_ (by norm_num)
    linarith [h3.2.1]
  · unfold v4_confidence
    exact le_trans (min_le_right _ _) (by norm_num)

/-- C2: for every input page (the empty page included), the v2, v3 and v4
strategies all report a sustainability score within [0, 10] and a confidence
level within [0, 1]; for v4 this holds whether or not the NLP capability is
available, and for every behaviour of the external NLP tooling. -/
theorem claim_C2_score_confidence_bounds (page : Page) (nlpAvailable : Bool)
    (tools : NlpTools) :
    (0 ≤ (detect_esg_content_v2 page).2.sustainability_score
      ∧ (detect_esg_content_v2 page).2.sustainability_score ≤ 10
      ∧ 0 ≤ (detect_esg_content_v2 page).2.confidence_level
      ∧ (detect_esg_content_v2 page).2.confidence_level ≤ 1)
    ∧ (0 ≤ (detect_esg_content_v3 page).2.sustainability_score
      ∧ (detect_esg_content_v3 page).2.sustainability_score ≤ 10
      ∧ 0 ≤ (detect_esg_content_v3 page).2.confidence_level
      ∧ (detect_esg_content_v3 page).2.confidence_level ≤ 1)
    ∧ (0 ≤ (detect_esg_content_v4 nlpAvailable tools page).2.sustainability_score
      ∧ (detect_esg_content_v4 nlpAvailable tools page).2.sustainability_score ≤ 10
      ∧ 0 ≤ (detect_esg_content_v4 nlpAvailable tools page).2.confidence_level
      ∧ (detect_esg_content_v4 nlpAvailable tools page).2.confidence_level ≤ 1) := by
  have h2 := v2_reported_bounds page
  have h3 := v3_reported_bounds page
  refine ⟨⟨h2.1.1, h2.1.2, h2.2.1, h2.2.2⟩, ⟨h3.1.1, h3.1.2, h3.2.1, h3.2.2⟩, ?_⟩
  cases nlpAvailable with
  | false => exact ⟨h3.1.1, h3.1.2, h3.2.1, h3.2.2⟩
  | true =>
    have h4 := v4_reported_bounds tools page
    exact ⟨h4.1.1, h4.1.2, h4.2.1, h4.2.2⟩

/-! ### C8: link extractor guarantees -/

theorem head_of_http {cs : Chars}
    (h : "http://".toList.isPrefixOf cs = true ∨ "https://".toList.isPrefixOf cs = true) :
    ∃ t, cs = 'h' :: t := by
  rcases h with h | h <;>
  · cases cs with
    | nil => simp [List.isPrefixOf] at h
    | cons c t =>
      simp [List.isPrefixOf] at h
      exact ⟨t, by rw [h.1]⟩

theorem not_prefix_of_http {cs : Chars} {q : String}
    (h : "http://".toList.isPrefixOf cs = true ∨ "https://".toList.isPrefixOf cs = true)
    (hq : ∃ c t, q.toList = c :: t ∧ c ≠ 'h') :
    q.toList.isPrefixOf cs = false := by
  obtain ⟨t, rfl⟩ := head_of_http h
  obtain ⟨c, tq, hqe, hc⟩ := hq
  rw [hqe]
  simp [List.isPrefixOf, hc]

/-- C8: every URL produced by the link extractor starts with an `http://` or
`https://` scheme (hence is not an in-page anchor nor a `javascript:`,
`mailto:` or `tel:` target) and has the same (case-insensitively compared)
host as the base URL; the returned collection holds no duplicates.  The
`urljoin` collaborator is universally quantified, so the guarantee holds
whatever absolute URL it resolves a reference to. -/
theorem claim_C8_link_extractor (ujoin : String → String → String) (page : Page)
    (base_url : String) :
    (∀ l ∈ extract_links ujoin page base_url,
      (pyStartsWith l "http://" = true ∨ pyStartsWith l "https://" = true)
      ∧ pyStartsWith l "#" = false
      ∧ pyStartsWith l "javascript:" = false
      ∧ pyStartsWith l "mailto:" = false
      ∧ pyStartsWith l "tel:" = false
      ∧ is_same_domain l base_url = true)
    ∧ (extract_links ujoin page base_url).Nodup := by
  constructor
  · intro l hl
    unfold extract_links at hl
    have hl2 := List.mem_dedup.mp hl
    obtain ⟨a, _, hfa⟩ := List.mem_filterMap.mp hl2
    dsimp only at hfa
    split at hfa
    · cases hfa
    · split at hfa
      · next hcond =>
        injection hfa with he
        subst he
        have hand := hcond
        rw [Bool.and_eq_true] at hand
        have hor := (Bool.or_eq_true _ _).mp hand.1
        have hhttp : pyStartsWith (ujoin base_url (pyStrip a.href)) "http://" = true
            ∨ pyStartsWith (ujoin base_url (pyStrip a.href)) "https://" = true := hor
        have hpre : "http://".toList.isPrefixOf (ujoin base_url (pyStrip a.href)).toList = true
            ∨ "https://".toList.isPrefixOf (ujoin base_url (pyStrip a.href)).toList = true := hor
        refine ⟨hhttp, ?_, ?_, ?_, ?_, hand.2⟩
        · exact not_prefix_of_http hpre ⟨'#', _, rfl, by decide⟩
        · exact not_prefix_of_http hpre ⟨'j', _, rfl, by decide⟩
        · exact not_prefix_of_http hpre ⟨'m', _, rfl, by decide⟩
        · exact not_prefix_of_http hpre ⟨'t', _, rfl, by decide⟩
      · cases hfa
  · exact List.nodup_dedup _

def w8page : Page :=
  { text := "",
    anchors := [{ href := "/about", text := "About" }, { href := "#top", text := "Top" },
                { href := "mailto:a@b.c", text := "Mail" }],
    navTexts := [], title := none }

def w8join : String → String → String := fun _ _ => "https://ex.com/about"

theorem claim_C8_link_extractor_witness :
    "https://ex.com/about" ∈ extract_links w8join w8page "https://EX.com"
    ∧ is_same_domain "https://ex.com/about" "https://EX.com" = true := by
  have hmem : "https://ex.com/about" ∈ extract_links w8join w8page "https://EX.com" := by
    with_unfolding_all decide
  exact ⟨hmem,
    ((claim_C8_link_extractor w8join w8page "https://EX.com").1 _ hmem).2.2.2.2.2⟩

/-! ### C6/C7: character and list infrastructure for the URL proofs -/

theorem toNat_ofNat_valid (n : Nat) (h1 : 97 ≤ n) (h2 : n ≤ 122) :
    (Char.ofNat n).toNat = n := by
  have hv : n.isValidChar := Or.inl (by omega)
  unfold Char.ofNat
  rw [dif_pos hv]
  show (Char.ofNatAux n hv).toNat = n
  show (UInt32.ofNat' n _).toNat = n
  rw [UInt32.toNat]
  show (BitVec.ofNatLt n _).toNat = n
  exact BitVec.toNat_ofNatLt n _

theorem toLower_cases (c : Char) :
    Char.toLower c = c
    ∨ (97 ≤ (Char.toLower c).toNat ∧ (Char.toLower c).toNat ≤ 122) := by
  unfold Char.toLower
  dsimp only
  split
  · next h =>
    right
    rw [toNat_ofNat_valid (c.toNat + 32) (by omega) (by omega)]
    omega
  · left
    rfl

theorem toLower_fix (d : Char) (hd : ¬(65 ≤ d.toNat ∧ d.toNat ≤ 90)) :
    Char.toLower d = d := by
  unfold Char.toLower
  dsimp only
  rw [if_neg]
  simpa [ge_iff_le] using hd

theorem toLower_ne (c d : Char) (hne : c ≠ d) (hd : d.toNat < 97) :
    Char.toLower c ≠ d := by
  rcases toLower_cases c with h | h
  · rw [h]
    exact hne
  · intro he
    rw [he] at h
    omega

theorem mem_map_toLower_iff (l : Chars) (d : Char) (hd : d.toNat < 97)
    (hfix : ¬(65 ≤ d.toNat ∧ d.toNat ≤ 90)) :
    d ∈ l.map Char.toLower ↔ d ∈ l := by
  simp only [List.mem_map]
  constructor
  · rintro ⟨c, hc, he⟩
    by_cases hcd : c = d
    · subst hcd
      exact hc
    · exact absurd he (toLower_ne c d hcd hd)
  · intro h
    exact ⟨d, h, toLower_fix d hfix⟩

theorem toLower_toLower (c : Char) :
    Char.toLower (Char.toLower c) = Char.toLower c := by
  rcases toLower_cases c with h | h
  · rw [h]
    exact h
  · exact toLower_fix _ (by omega)

theorem map_toLower_idem (l : Chars) :
    (l.map Char.toLower).map Char.toLower = l.map Char.toLower := by
  rw [List.map_map]
  exact List.map_congr_left (fun c _ => toLower_toLower c)

theorem not_mem_map_toLower (l : Chars) (d : Char) (hd : d.toNat < 97)
    (h : d ∉ l) : d ∉ l.map Char.toLower := by
  intro hm
  obtain ⟨c, hc, he⟩ := List.mem_map.mp hm
  by_cases hcd : c = d
  · exact h (hcd ▸ hc)
  · exact toLower_ne c d hcd hd he

theorem takeWhile_all_append {p : Char → Bool} {xs : Chars}
    (h : ∀ x ∈ xs, p x = true) (y : Char) (hy : p y = false) (ys : Chars) :
    (xs ++ y :: ys).takeWhile p = xs ∧ (xs ++ y :: ys).dropWhile p = y :: ys := by
  induction xs with
  | nil => simp [List.takeWhile_cons, List.dropWhile_cons, hy]
  | cons a as ih =>
    have ha : p a = true := h a (by simp)
    have ih2 := ih (fun x hx => h x (by simp [hx]))
    simp [List.takeWhile_cons, List.dropWhile_cons, ha, ih2.1, ih2.2]

theorem takeWhile_of_all {p : Char → Bool} {xs : Chars}
    (h : ∀ x ∈ xs, p x = true) :
    xs.takeWhile p = xs ∧ xs.dropWhile p = [] := by
  induction xs with
  | nil => simp
  | cons a as ih =>
    have ha : p a = true := h a (by simp)
    have ih2 := ih (fun x hx => h x (by simp [hx]))
    simp [List.takeWhile_cons, List.dropWhile_cons, ha, ih2.1, ih2.2]

theorem splitFirst_not_mem {ch : Char} {cs : Chars} (h : ch ∉ cs) :
    splitFirst ch cs = (cs, none) := by
  induction cs with
  | nil => rfl
  | cons c r ih =>
    have hne : ¬(c = ch) := by
      rintro rfl
      exact h (by simp)
    have ih2 := ih (fun hm => h (by simp [hm]))
    simp [splitFirst, hne, ih2]

theorem splitFirst_append {ch : Char} {xs : Chars} (h : ch ∉ xs) (ys : Chars) :
    splitFirst ch (xs ++ ch :: ys) = (xs, some ys) := by
  induction xs with
  | nil => simp [splitFirst]
  | cons c r ih =>
    have hne : ¬(c = ch) := by
      rintro rfl
      exact h (by simp)
    have ih2 := ih (fun hm => h (by simp [hm]))
    simp [splitFirst, hne, ih2]

theorem splitFirst_none_eq {ch : Char} {cs a : Chars}
    (h : splitFirst ch cs = (a, none)) : a = cs ∧ ch ∉ cs := by
  induction cs generalizing a with
  | nil =>
    simp only [splitFirst] at h
    injection h with h1 _
    simp [h1.symm]
  | cons c r ih =>
    by_cases hc : c = ch
    · simp [splitFirst, hc] at h
    · cases hsp : splitFirst ch r with
      | mk a2 o2 =>
        simp only [splitFirst, if_neg hc, hsp] at h
        injection h with h1 h2
        subst h2
        obtain ⟨he, hmem⟩ := ih hsp
        subst he
        refine ⟨h1.symm, ?_⟩
        simp only [List.mem_cons, not_or]
        exact ⟨fun hch => hc hch.symm, hmem⟩

theorem splitFirst_some_eq {ch : Char} {cs a b : Chars}
    (h : splitFirst ch cs = (a, some b)) : cs = a ++ ch :: b ∧ ch ∉ a := by
  induction cs generalizing a b with
  | nil => simp [splitFirst] at h
  | cons c r ih =>
    by_cases hc : c = ch
    · simp only [splitFirst, if_pos hc] at h
      injection h with h1 h2
      subst hc
      rw [← h1]
      injection h2 with h3
      simp [h3]
    · cases hsp : splitFirst ch r with
      | mk a2 o2 =>
        simp only [splitFirst, if_neg hc, hsp] at h
        injection h with h1 h2
        subst h2
        obtain ⟨he, hmem⟩ := ih hsp
        subst he
        rw [← h1]
        refine ⟨rfl, ?_⟩
        simp only [List.mem_cons, not_or]
        exact ⟨fun hch => hc hch.symm, hmem⟩

theorem rstrip_pre (l : Chars) : rstripSlashes l <+: l := by
  unfold rstripSlashes
  obtain ⟨t, ht⟩ := List.dropWhile_suffix (l := l.reverse) (p := fun c => c = '/')
  refine ⟨t.reverse, ?_⟩
  rw [← List.reverse_append, ht, List.reverse_reverse]

theorem rstrip_subset {x : Char} {l : Chars} (h : x ∈ rstripSlashes l) : x ∈ l :=
  (rstrip_pre l).subset h

theorem rstrip_idem (l : Chars) : rstripSlashes (rstripSlashes l) = rstripSlashes l := by
  unfold rstripSlashes
  rw [List.reverse_reverse, List.dropWhile_idempotent]

theorem rstrip_head {t : Chars} :
    rstripSlashes ('/' :: t) = [] ∨ ∃ t2, rstripSlashes ('/' :: t) = '/' :: t2 := by
  cases he : rstripSlashes ('/' :: t) with
  | nil => exact Or.inl rfl
  | cons c t2 =>
    right
    have hp := rstrip_pre ('/' :: t)
    rw [he] at hp
    obtain ⟨s, hs⟩ := hp
    rw [List.cons_append] at hs
    injection hs with h1 _
    exact ⟨t2, by rw [h1]⟩

/-! ### C6/C7: parse characterization -/

theorem splitScheme_shape (pre rest : Chars)
    (hpre : pre = "http".toList ∨ pre = "https".toList) :
    splitScheme (pre ++ ':' :: rest) = (pre, rest) := by
  rcases hpre with rfl | rfl <;> rfl

theorem ensured_shape (u : String) :
    ∃ pre rest, (pre = "http".toList ∨ pre = "https".toList)
      ∧ cleanUrl (ensureScheme u).toList = pre ++ ':' :: '/' :: '/' :: rest := by
  unfold ensureScheme
  by_cases h : (pyStartsWith u "http://" || pyStartsWith u "https://") = true
  · rw [if_pos h]
    rcases (Bool.or_eq_true _ _).mp h with h1 | h1
    · obtain ⟨t, ht⟩ := List.isPrefixOf_iff_prefix.mp h1
      refine ⟨"http".toList, t.filter (fun c => !tabCrLf c), Or.inl rfl, ?_⟩
      rw [show u.toList = 'h' :: 't' :: 't' :: 'p' :: ':' :: '/' :: '/' :: t from by rw [← ht]; rfl]
      rfl
    · obtain ⟨t, ht⟩ := List.isPrefixOf_iff_prefix.mp h1
      refine ⟨"https".toList, t.filter (fun c => !tabCrLf c), Or.inr rfl, ?_⟩
      rw [show u.toList = 'h' :: 't' :: 't' :: 'p' :: 's' :: ':' :: '/' :: '/' :: t from by rw [← ht]; rfl]
      rfl
  · rw [if_neg h]
    refine ⟨"https".toList, u.toList.filter (fun c => !tabCrLf c), Or.inr rfl, ?_⟩
    rw [show ("https://" ++ u).toList = 'h' :: 't' :: 't' :: 'p' :: 's' :: ':' :: '/' :: '/' :: u.toList from rfl]
    rfl

theorem slashes_isPrefixOf (rest : Chars) :
    (['/', '/'] : Chars).isPrefixOf ('/' :: '/' :: rest) = true := by
  simp [List.isPrefixOf]

theorem urlsplitE_char (u0 pre rest : Chars)
    (hpre : pre = "http".toList ∨ pre = "https".toList)
    (hclean : cleanUrl u0 = pre ++ ':' :: '/' :: '/' :: rest)
    (hbr : bracketMismatch (rest.takeWhile (fun c => !netlocDelim c)) = false) :
    urlsplitE u0 = .ok
      { scheme := pre,
        netloc := rest.takeWhile (fun c => !netlocDelim c),
        path := (querySplit (fragSplit (rest.dropWhile (fun c => !netlocDelim c))).1).1,
        params := [],
        query := (querySplit (fragSplit (rest.dropWhile (fun c => !netlocDelim c))).1).2,
        fragment := (fragSplit (rest.dropWhile (fun c => !netlocDelim c))).2 } := by
  unfold urlsplitE
  rw [hclean]
  dsimp only
  rw [splitScheme_shape pre _ hpre]
  simp only [slashes_isPrefixOf,
    List.drop_succ_cons, List.drop_zero, if_true, hbr, Bool.false_eq_true, if_false]

theorem raw_netloc_eq (u : String) (pre rest : Chars)
    (hpre : pre = "http".toList ∨ pre = "https".toList)
    (hclean : cleanUrl (ensureScheme u).toList = pre ++ ':' :: '/' :: '/' :: rest) :
    raw_netloc u = rest.takeWhile (fun c => !netlocDelim c) := by
  unfold raw_netloc
  rw [hclean]
  dsimp only
  rw [splitScheme_shape pre _ hpre]
  simp only [slashes_isPrefixOf,
    List.drop_succ_cons, List.drop_zero, if_true]

theorem bracketMismatch_false_of (nl : Chars) (h1 : '[' ∉ nl) (h2 : ']' ∉ nl) :
    bracketMismatch nl = false := by
  simp [bracketMismatch, h1, h2]

theorem urlparseE_isOk (cs : Chars) (h : ∃ p, urlsplitE cs = .ok p) :
    ∃ p, urlparseE cs = .ok p := by
  obtain ⟨p, hp⟩ := h
  unfold urlparseE
  rw [hp]
  dsimp only
  by_cases hsm : ';' ∈ p.path
  · rw [if_pos hsm]
    exact ⟨_, rfl⟩
  · rw [if_neg hsm]
    exact ⟨_, rfl⟩

theorem normalize_isOk (u : String) (h : ∃ p, urlparseE (ensureScheme u).toList = .ok p) :
    ∃ s, normalize_url u = .ok s := by
  obtain ⟨p, hp⟩ := h
  unfold normalize_url
  rw [hp]
  exact ⟨_, rfl⟩

/-- C7 counterexample: `_normalize_url("https://[")` raises
`ValueError("Invalid IPv6 URL")` inside `urlparse`, so the normalizer is not
a total function on all strings. -/
theorem claim_C7_counterexample :
    normalize_url "https://[" = .error "Invalid IPv6 URL" := by
  with_unfolding_all rfl

/-- C7 amended: the normalizer is a deterministic total function on every
input whose netloc (as isolated by `_splitnetloc` after scheme insertion)
contains no square bracket and only ASCII characters — the bracket check and
the only other `urlsplit` validations (bracketed-host and non-ASCII netloc
checks) then cannot fire, and every later step is a total computation. -/
theorem claim_C7_normalizer_total (u : String)
    (h1 : '[' ∉ raw_netloc u) (h2 : ']' ∉ raw_netloc u)
    (h3 : ∀ c ∈ raw_netloc u, c.toNat < 128) :
    ∃ s, normalize_url u = .ok s := by
  obtain ⟨pre, rest, hpre, hclean⟩ := ensured_shape u
  have hrn := raw_netloc_eq u pre rest hpre hclean
  rw [hrn] at h1 h2
  have hbr := bracketMismatch_false_of _ h1 h2
  exact normalize_isOk u (urlparseE_isOk _ ⟨_, urlsplitE_char _ pre rest hpre hclean hbr⟩)

theorem mem_takeWhile_pred {p : Char → Bool} {l : Chars} {c : Char}
    (h : c ∈ l.takeWhile p) : p c = true := by
  induction l with
  | nil => simp [List.takeWhile] at h
  | cons a t ih =>
    rw [List.takeWhile_cons] at h
    by_cases ha : p a = true
    · rw [if_pos ha] at h
      rcases List.mem_cons.mp h with rfl | h2
      · exact ha
      · exact ih h2
    · rw [if_neg ha] at h
      simp at h

theorem mem_takeWhile_mem {p : Char → Bool} {l : Chars} {c : Char}
    (h : c ∈ l.takeWhile p) : c ∈ l :=
  ( List.takeWhile_prefix p).subset h

theorem mem_dropWhile_mem {p : Char → Bool} {l : Chars} {c : Char}
    (h : c ∈ l.dropWhile p) : c ∈ l :=
  (List.dropWhile_suffix p).subset h

theorem dropWhile_shape (p : Char → Bool) (l : Chars) :
    l.dropWhile p = [] ∨ ∃ c t, l.dropWhile p = c :: t ∧ p c = false := by
  induction l with
  | nil => exact Or.inl rfl
  | cons a t ih =>
    rw [List.dropWhile_cons]
    by_cases ha : p a = true
    · rw [if_pos ha]; exact ih
    · rw [if_neg ha]
      exact Or.inr ⟨a, t, rfl, Bool.eq_false_iff.mpr ha⟩

theorem fragSplit_fst_subset {u : Chars} {c : Char}
    (h : c ∈ (fragSplit u).1) : c ∈ u := by
  unfold fragSplit at h
  cases hs : splitFirst '#' u with
  | mk a o =>
    cases o with
    | none =>
      rw [hs] at h
      exact (splitFirst_none_eq hs).1 ▸ h
    | some b =>
      rw [hs] at h
      rw [(splitFirst_some_eq hs).1]
      exact List.mem_append_left _ h

theorem fragSplit_fst_no_hash (u : Chars) : '#' ∉ (fragSplit u).1 := by
  unfold fragSplit
  cases hs : splitFirst '#' u with
  | mk a o =>
    cases o with
    | none => exact fun h => (splitFirst_none_eq hs).2 ((splitFirst_none_eq hs).1 ▸ h)
    | some b => exact (splitFirst_some_eq hs).2

theorem fragSplit_snd_subset {u : Chars} {c : Char}
    (h : c ∈ (fragSplit u).2) : c ∈ u := by
  unfold fragSplit at h
  cases hs : splitFirst '#' u with
  | mk a o =>
    cases o with
    | none => rw [hs] at h; simp at h
    | some b =>
      rw [hs] at h
      rw [(splitFirst_some_eq hs).1]
      exact List.mem_append_right _ (List.mem_cons_of_mem _ h)

theorem querySplit_fst_subset {u : Chars} {c : Char}
    (h : c ∈ (querySplit u).1) : c ∈ u := by
  unfold querySplit at h
  cases hs : splitFirst '?' u with
  | mk a o =>
    cases o with
    | none =>
      rw [hs] at h
      exact (splitFirst_none_eq hs).1 ▸ h
    | some b =>
      rw [hs] at h
      rw [(splitFirst_some_eq hs).1]
      exact List.mem_append_left _ h

theorem querySplit_fst_no_q (u : Chars) : '?' ∉ (querySplit u).1 := by
  unfold querySplit
  cases hs : splitFirst '?' u with
  | mk a o =>
    cases o with
    | none => exact fun h => (splitFirst_none_eq hs).2 ((splitFirst_none_eq hs).1 ▸ h)
    | some b => exact (splitFirst_some_eq hs).2

theorem querySplit_snd_subset {u : Chars} {c : Char}
    (h : c ∈ (querySplit u).2) : c ∈ u := by
  unfold querySplit at h
  cases hs : splitFirst '?' u with
  | mk a o =>
    cases o with
    | none => rw [hs] at h; simp at h
    | some b =>
      rw [hs] at h
      rw [(splitFirst_some_eq hs).1]
      exact List.mem_append_right _ (List.mem_cons_of_mem _ h)

theorem splitLast_some_eq {ch : Char} {u a b : Chars}
    (h : splitLast ch u = some (a, b)) : u = a ++ ch :: b := by
  unfold splitLast at h
  cases hs : splitFirst ch u.reverse with
  | mk brev o =>
    cases o with
    | none => rw [hs] at h; simp at h
    | some arev =>
      rw [hs] at h
      obtain ⟨he, hnm⟩ := splitFirst_some_eq hs
      injection h with h1
      injection h1 with ha hb
      have : u = arev.reverse ++ ch :: brev.reverse := by
        have := congrArg List.reverse he
        rw [List.reverse_reverse] at this
        rw [this, List.reverse_append, List.reverse_cons, List.append_assoc]
        simp
      rw [this, ha, hb]

theorem splitparams_fst_subset {u : Chars} {c : Char}
    (h : c ∈ (splitparams u).1) : c ∈ u := by
  unfold splitparams at h
  cases hl : splitLast '/' u with
  | some ab =>
    obtain ⟨a, b⟩ := ab
    rw [hl] at h
    dsimp only at h
    have hu : u = a ++ '/' :: b := splitLast_some_eq hl
    cases hf : splitFirst ';' b with
    | mk t o =>
      cases o with
      | some rest =>
        rw [hf] at h
        rcases List.mem_append.mp h with h1 | h1
        · rw [hu]; exact List.mem_append_left _ h1
        · rcases List.mem_cons.mp h1 with rfl | h2
          · rw [hu]; exact List.mem_append_right _ (List.mem_cons_self _ _)
          · rw [hu]
            refine List.mem_append_right _ (List.mem_cons_of_mem _ ?_)
            rw [(splitFirst_some_eq hf).1]
            exact List.mem_append_left _ h2
      | none => rw [hf] at h; exact h
  | none =>
    rw [hl] at h
    dsimp only at h
    cases hf : splitFirst ';' u with
    | mk t o =>
      cases o with
      | some rest =>
        rw [hf] at h
        rw [(splitFirst_some_eq hf).1]
        exact List.mem_append_left _ h
      | none => rw [hf] at h; exact h

theorem splitparams_snd_subset {u : Chars} {c : Char}
    (h : c ∈ (splitparams u).2) : c ∈ u := by
  unfold splitparams at h
  cases hl : splitLast '/' u with
  | some ab =>
    obtain ⟨a, b⟩ := ab
    rw [hl] at h
    dsimp only at h
    have hu : u = a ++ '/' :: b := splitLast_some_eq hl
    cases hf : splitFirst ';' b with
    | mk t o =>
      cases o with
      | some rest =>
        rw [hf] at h
        rw [hu]
        refine List.mem_append_right _ (List.mem_cons_of_mem _ ?_)
        rw [(splitFirst_some_eq hf).1]
        exact List.mem_append_right _ (List.mem_cons_of_mem _ h)
      | none => rw [hf] at h; simp at h
  | none =>
    rw [hl] at h
    dsimp only at h
    cases hf : splitFirst ';' u with
    | mk t o =>
      cases o with
      | some rest =>
        rw [hf] at h
        rw [(splitFirst_some_eq hf).1]
        exact List.mem_append_right _ (List.mem_cons_of_mem _ h)
      | none => rw [hf] at h; simp at h

theorem tabCrLf_toLower {c : Char} (h : tabCrLf c = false) :
    tabCrLf c.toLower = false := by
  have hne : ∀ d : Char, tabCrLf d = true → c ≠ d := by
    intro d hd he
    rw [he, hd] at h
    exact absurd h (by simp)
  have h1 : c.toLower ≠ '\t' := toLower_ne c '\t' (hne '\t' (by decide)) (by decide)
  have h2 : c.toLower ≠ '\r' := toLower_ne c '\r' (hne '\r' (by decide)) (by decide)
  have h3 : c.toLower ≠ '\n' := toLower_ne c '\n' (hne '\n' (by decide)) (by decide)
  simp [tabCrLf, h1, h2, h3]

theorem netlocDelim_toLower {c : Char} (h : netlocDelim c = false) :
    netlocDelim c.toLower = false := by
  have hne : ∀ d : Char, netlocDelim d = true → c ≠ d := by
    intro d hd he
    rw [he, hd] at h
    exact absurd h (by simp)
  have h1 : c.toLower ≠ '/' := toLower_ne c '/' (hne '/' (by decide)) (by decide)
  have h2 : c.toLower ≠ '?' := toLower_ne c '?' (hne '?' (by decide)) (by decide)
  have h3 : c.toLower ≠ '#' := toLower_ne c '#' (hne '#' (by decide)) (by decide)
  simp [netlocDelim, h1, h2, h3]

theorem cleanUrl_mem_not_tab {cs : Chars} {c : Char}
    (h : c ∈ cleanUrl cs) : tabCrLf c = false := by
  unfold cleanUrl at h
  have := (List.mem_filter.mp h).2
  simpa using this

theorem cleanUrl_of_clean {cs : Chars}
    (h1 : ∃ c t, cs = c :: t ∧ c0ControlOrSpace c = false)
    (h2 : ∀ c ∈ cs, tabCrLf c = false) : cleanUrl cs = cs := by
  obtain ⟨c, t, rfl, hc⟩ := h1
  unfold cleanUrl
  rw [List.dropWhile_cons, if_neg (by simp [hc])]
  rw [List.filter_eq_self.mpr (by intro a ha; simpa using h2 a ha)]

theorem bracketMismatch_map_toLower (nl : Chars) :
    bracketMismatch (nl.map Char.toLower) = bracketMismatch nl := by
  have h1 : '[' ∈ nl.map Char.toLower ↔ '[' ∈ nl :=
    mem_map_toLower_iff nl '[' (by decide) (by decide)
  have h2 : ']' ∈ nl.map Char.toLower ↔ ']' ∈ nl :=
    mem_map_toLower_iff nl ']' (by decide) (by decide)
  simp [bracketMismatch, h1, h2]

theorem urlsplitE_err (u0 pre rest : Chars)
    (hpre : pre = "http".toList ∨ pre = "https".toList)
    (hclean : cleanUrl u0 = pre ++ ':' :: '/' :: '/' :: rest)
    (hbr : bracketMismatch (rest.takeWhile (fun c => !netlocDelim c)) = true) :
    urlsplitE u0 = .error "Invalid IPv6 URL" := by
  unfold urlsplitE
  rw [hclean]
  dsimp only
  rw [splitScheme_shape pre _ hpre]
  simp only [slashes_isPrefixOf, List.drop_succ_cons, List.drop_zero, if_true, hbr]

theorem normalize_err {u : String} {e : String}
    (h : urlsplitE (ensureScheme u).toList = .error e) :
    normalize_url u = .error e := by
  unfold normalize_url urlparseE
  rw [h]

theorem urlunsplit_scheme_pre (pre netloc url query : Chars)
    (hpre : pre = "http".toList ∨ pre = "https".toList) :
    ∃ tail, urlunsplit pre netloc url query [] =
      pre ++ ':' :: '/' :: '/' :: tail := by
  rcases hpre with rfl | rfl <;>
  · cases netloc with
    | cons n nt =>
      cases query with
      | nil => exact ⟨_, rfl⟩
      | cons qh qt => exact ⟨_, rfl⟩
    | nil =>
      by_cases hp : ['/', '/'].isPrefixOf url = true
      · obtain ⟨t2, ht2⟩ := List.isPrefixOf_iff_prefix.mp hp
        have hurl : url = '/' :: '/' :: t2 := by rw [← ht2]; rfl
        unfold urlunsplit
        rw [hurl, slashes_isPrefixOf]
        cases query with
        | nil => exact ⟨_, rfl⟩
        | cons qh qt => exact ⟨_, rfl⟩
      · have hp2 : ['/', '/'].isPrefixOf url = false := Bool.eq_false_iff.mpr hp
        unfold urlunsplit
        rw [hp2]
        cases query with
        | nil => exact ⟨_, rfl⟩
        | cons qh qt => exact ⟨_, rfl⟩

theorem urlunsplit_mem {scheme netloc url query : Chars} {c : Char}
    (h : c ∈ urlunsplit scheme netloc url query []) :
    c ∈ scheme ∨ c ∈ netloc ∨ c ∈ url ∨ c ∈ query
    ∨ c = ':' ∨ c = '/' ∨ c = '?' := by
  unfold urlunsplit at h
  dsimp only at h
  repeat' split at h
  all_goals
    try simp only [List.mem_append, List.mem_cons, List.not_mem_nil, or_false] at h
  all_goals tauto

theorem urlunsplit_no_hash (scheme netloc url query : Chars)
    (h1 : '#' ∉ scheme) (h2 : '#' ∉ netloc) (h3 : '#' ∉ url) (h4 : '#' ∉ query) :
    '#' ∉ urlunsplit scheme netloc url query [] := by
  intro hm
  rcases urlunsplit_mem hm with h | h | h | h | h | h | h
  · exact h1 h
  · exact h2 h
  · exact h3 h
  · exact h4 h
  · exact absurd h (by decide)
  · exact absurd h (by decide)
  · exact absurd h (by decide)

theorem urlunsplit_nice (pre nlL qry : Chars) (t : Chars)
    (hpre : pre = "http".toList ∨ pre = "https".toList)
    (hnl : nlL ≠ []) :
    urlunsplit pre nlL ('/' :: t) qry [] =
      pre ++ ':' :: '/' :: '/' ::
        (nlL ++ '/' :: t ++ (if qry.isEmpty then [] else '?' :: qry)) := by
  cases nlL with
  | nil => exact absurd rfl hnl
  | cons a l =>
    rcases hpre with rfl | rfl <;>
      cases qry with
      | nil =>
        simp only [List.isEmpty_nil, eq_self_iff_true, if_true, List.append_nil]
        rfl
      | cons b m => rfl

theorem ensureScheme_noop (s : String)
    (h : pyStartsWith s "http://" = true ∨ pyStartsWith s "https://" = true) :
    ensureScheme s = s := by
  unfold ensureScheme
  rcases h with h | h <;> simp [h]

theorem splitFirst_cons_ne {ch c : Char} (h : c ≠ ch) (t : Chars) :
    splitFirst ch (c :: t) = (c :: (splitFirst ch t).1, (splitFirst ch t).2) := by
  simp [splitFirst, h]

theorem splitFirst_cons_self (ch : Char) (t : Chars) :
    splitFirst ch (ch :: t) = ([], some t) := by
  simp [splitFirst]

theorem fragSplit_fst_cons_ne {c : Char} (h : c ≠ '#') (t : Chars) :
    (fragSplit (c :: t)).1 = c :: (splitFirst '#' t).1 := by
  unfold fragSplit
  rw [splitFirst_cons_ne h]
  cases h2 : (splitFirst '#' t).2 with
  | none => rfl
  | some b => rfl

theorem fragSplit_cons_hash (t : Chars) : fragSplit ('#' :: t) = ([], t) := by
  unfold fragSplit
  rw [splitFirst_cons_self]

theorem querySplit_fst_cons_ne {c : Char} (h : c ≠ '?') (t : Chars) :
    (querySplit (c :: t)).1 = c :: (splitFirst '?' t).1 := by
  unfold querySplit
  rw [splitFirst_cons_ne h]
  cases h2 : (splitFirst '?' t).2 with
  | none => rfl
  | some b => rfl

theorem querySplit_cons_q (t : Chars) : querySplit ('?' :: t) = ([], t) := by
  unfold querySplit
  rw [splitFirst_cons_self]

theorem qpath_head (rem : Chars)
    (h : rem = [] ∨ ∃ c t, rem = c :: t ∧ netlocDelim c = true) :
    (querySplit (fragSplit rem).1).1 = []
    ∨ ∃ t, (querySplit (fragSplit rem).1).1 = '/' :: t := by
  rcases h with rfl | ⟨c, t, rfl, hc⟩
  · exact Or.inl rfl
  · have hc3 : c = '/' ∨ c = '?' ∨ c = '#' := by
      unfold netlocDelim at hc
      simp only [Bool.or_eq_true, decide_eq_true_eq] at hc
      tauto
    rcases hc3 with rfl | rfl | rfl
    · rw [fragSplit_fst_cons_ne (by decide) t]
      exact Or.inr ⟨_, querySplit_fst_cons_ne (by decide) _⟩
    · rw [fragSplit_fst_cons_ne (by decide) t]
      rw [querySplit_cons_q]
      exact Or.inl rfl
    · rw [fragSplit_cons_hash]
      exact Or.inl rfl

theorem mk_toList (l : Chars) : (String.mk l).toList = l := rfl

theorem pre_tab {pre : Chars}
    (hpre : pre = "http".toList ∨ pre = "https".toList)
    {c : Char} (hc : c ∈ pre) : tabCrLf c = false := by
  rcases hpre with rfl | rfl
  · rw [show ("http".toList : Chars) = ['h', 't', 't', 'p'] from rfl] at hc
    simp only [List.mem_cons, List.not_mem_nil, or_false] at hc
    rcases hc with rfl | rfl | rfl | rfl <;> decide
  · rw [show ("https".toList : Chars) = ['h', 't', 't', 'p', 's'] from rfl] at hc
    simp only [List.mem_cons, List.not_mem_nil, or_false] at hc
    rcases hc with rfl | rfl | rfl | rfl | rfl <;> decide

theorem pre_head {pre : Chars}
    (hpre : pre = "http".toList ∨ pre = "https".toList) (X : Chars) :
    ∃ c t, pre ++ X = c :: t ∧ c0ControlOrSpace c = false := by
  rcases hpre with rfl | rfl
  · exact ⟨'h', _, rfl, by decide⟩
  · exact ⟨'h', _, rfl, by decide⟩

theorem startsWith_of_toList {s : String} {pre tail : Chars}
    (hpre : pre = "http".toList ∨ pre = "https".toList)
    (h : s.toList = pre ++ ':' :: '/' :: '/' :: tail) :
    pyStartsWith s "http://" = true ∨ pyStartsWith s "https://" = true := by
  rcases hpre with rfl | rfl
  · left
    unfold pyStartsWith
    rw [h]
    exact List.isPrefixOf_iff_prefix.mpr ⟨tail, rfl⟩
  · right
    unfold pyStartsWith
    rw [h]
    exact List.isPrefixOf_iff_prefix.mpr ⟨tail, rfl⟩

theorem normalize_of_parts (u : String) (pre rest nl rem qpath query : Chars)
    (hpre : pre = "http".toList ∨ pre = "https".toList)
    (hclean : cleanUrl (ensureScheme u).toList = pre ++ ':' :: '/' :: '/' :: rest)
    (htk : rest.takeWhile (fun c => !netlocDelim c) = nl)
    (hdr : rest.dropWhile (fun c => !netlocDelim c) = rem)
    (hqp : (querySplit (fragSplit rem).1).1 = qpath)
    (hq : (querySplit (fragSplit rem).1).2 = query)
    (hbr : bracketMismatch nl = false)
    (hsc : ';' ∉ qpath) :
    normalize_url u = .ok (String.mk (urlunsplit pre (nl.map Char.toLower)
      (if (rstripSlashes qpath).isEmpty then ['/'] else rstripSlashes qpath)
      query [])) := by
  subst htk hdr hqp hq
  have hq0 : urlsplitE (ensureScheme u).toList = .ok
      { scheme := pre,
        netloc := rest.takeWhile (fun c => !netlocDelim c),
        path := (querySplit (fragSplit (rest.dropWhile (fun c => !netlocDelim c))).1).1,
        params := [],
        query := (querySplit (fragSplit (rest.dropWhile (fun c => !netlocDelim c))).1).2,
        fragment := (fragSplit (rest.dropWhile (fun c => !netlocDelim c))).2 } :=
    urlsplitE_char (ensureScheme u).toList pre rest hpre hclean hbr
  have hp : urlparseE (ensureScheme u).toList = .ok
      { scheme := pre,
        netloc := rest.takeWhile (fun c => !netlocDelim c),
        path := (querySplit (fragSplit (rest.dropWhile (fun c => !netlocDelim c))).1).1,
        params := [],
        query := (querySplit (fragSplit (rest.dropWhile (fun c => !netlocDelim c))).1).2,
        fragment := (fragSplit (rest.dropWhile (fun c => !netlocDelim c))).2 } := by
    unfold urlparseE
    rw [hq0]
    dsimp only
    rw [if_neg hsc]
  unfold normalize_url
  rw [hp]
  dsimp only
  rfl

theorem normalize_ok_shape (u s : String) (hok : normalize_url u = .ok s) :
    ∃ p : UrlParts, urlparseE (ensureScheme u).toList = .ok p
      ∧ s = String.mk (urlunparse
          { scheme := p.scheme, netloc := p.netloc.map Char.toLower,
            path := if (rstripSlashes p.path).isEmpty then ['/']
                    else rstripSlashes p.path,
            params := p.params, query := p.query, fragment := [] }) := by
  unfold normalize_url at hok
  cases hp : urlparseE (ensureScheme u).toList with
  | error e =>
    rw [hp] at hok
    exact absurd hok (by simp)
  | ok p =>
    rw [hp] at hok
    dsimp only at hok
    exact ⟨p, rfl, (Except.ok.inj hok).symm⟩

theorem urlparse_ensure_facts (u : String) {p : UrlParts}
    (h : urlparseE (ensureScheme u).toList = .ok p) :
    (p.scheme = "http".toList ∨ p.scheme = "https".toList)
    ∧ '#' ∉ p.netloc ∧ '#' ∉ p.path ∧ '#' ∉ p.params ∧ '#' ∉ p.query := by
  obtain ⟨pre, rest, hpre, hclean⟩ := ensured_shape u
  cases hbr : bracketMismatch (rest.takeWhile (fun c => !netlocDelim c)) with
  | true =>
    rw [show urlparseE (ensureScheme u).toList = .error "Invalid IPv6 URL" from by
      unfold urlparseE
      rw [urlsplitE_err _ pre rest hpre hclean hbr]] at h
    exact absurd h (by simp)
  | false =>
    have hq0 := urlsplitE_char (ensureScheme u).toList pre rest hpre hclean hbr
    unfold urlparseE at h
    rw [hq0] at h
    dsimp only at h
    have hnl_hash : '#' ∉ rest.takeWhile (fun c => !netlocDelim c) := by
      intro hm
      have := mem_takeWhile_pred hm
      simp [netlocDelim] at this
    have hqp_hash :
        '#' ∉ (querySplit (fragSplit (rest.dropWhile (fun c => !netlocDelim c))).1).1 :=
      fun hm => fragSplit_fst_no_hash _ (querySplit_fst_subset hm)
    have hqr_hash :
        '#' ∉ (querySplit (fragSplit (rest.dropWhile (fun c => !netlocDelim c))).1).2 :=
      fun hm => fragSplit_fst_no_hash _ (querySplit_snd_subset hm)
    by_cases hsm :
        ';' ∈ (querySplit (fragSplit (rest.dropWhile (fun c => !netlocDelim c))).1).1
    · rw [if_pos hsm] at h
      have he := Except.ok.inj h
      subst he
      refine ⟨hpre, hnl_hash, ?_, ?_, hqr_hash⟩
      · exact fun hm => hqp_hash (splitparams_fst_subset hm)
      · exact fun hm => hqp_hash (splitparams_snd_subset hm)
    · rw [if_neg hsm] at h
      have he := Except.ok.inj h
      subst he
      exact ⟨hpre, hnl_hash, hqp_hash, by simp, hqr_hash⟩

theorem normalize_pre (u s : String) (hok : normalize_url u = .ok s) :
    pyStartsWith s "http://" = true ∨ pyStartsWith s "https://" = true := by
  obtain ⟨p, hp, hs⟩ := normalize_ok_shape u s hok
  obtain ⟨hpre, -, -, -, -⟩ := urlparse_ensure_facts u hp
  obtain ⟨tail, htail⟩ := urlunsplit_scheme_pre p.scheme (p.netloc.map Char.toLower)
    (if !p.params.isEmpty then
      (if (rstripSlashes p.path).isEmpty then ['/'] else rstripSlashes p.path)
        ++ ';' :: p.params
     else (if (rstripSlashes p.path).isEmpty then ['/'] else rstripSlashes p.path))
    p.query hpre
  have hslist : s.toList = p.scheme ++ ':' :: '/' :: '/' :: tail := by
    rw [hs, mk_toList, ← htail]
    rfl
  exact startsWith_of_toList hpre hslist

theorem normalize_no_hash (u s : String) (hok : normalize_url u = .ok s) :
    '#' ∉ s.toList := by
  obtain ⟨p, hp, hs⟩ := normalize_ok_shape u s hok
  obtain ⟨hpre, hn, hpath, hparams, hq⟩ := urlparse_ensure_facts u hp
  rw [hs, mk_toList]
  have hpath2 : '#' ∉ (if (rstripSlashes p.path).isEmpty then ['/']
      else rstripSlashes p.path) := by
    split
    · simp
    · exact fun hm => hpath (rstrip_subset hm)
  dsimp only [urlunparse]
  apply urlunsplit_no_hash
  · rcases hpre with he | he <;> rw [he] <;> decide
  · exact not_mem_map_toLower _ '#' (by decide) hn
  · split
    · intro hm
      rcases List.mem_append.mp hm with hm1 | hm1
      · exact hpath2 hm1
      rcases List.mem_cons.mp hm1 with he | hm2
      · exact absurd he (by decide)
      · exact hparams hm2
    · exact hpath2
  · exact hq

theorem normalize_roundtrip (pre nl qpath qry : Chars) (s : String)
    (hpre : pre = "http".toList ∨ pre = "https".toList)
    (hnl : nl ≠ [])
    (hnlpred : ∀ c ∈ nl, netlocDelim c = false)
    (hnltab : ∀ c ∈ nl, tabCrLf c = false)
    (hbr : bracketMismatch nl = false)
    (hqpshape : qpath = [] ∨ ∃ t, qpath = '/' :: t)
    (hqp_noq : '?' ∉ qpath)
    (hqp_nohash : '#' ∉ qpath)
    (hqp_nosemi : ';' ∉ qpath)
    (hqp_tab : ∀ c ∈ qpath, tabCrLf c = false)
    (hqr_nohash : '#' ∉ qry)
    (hqr_tab : ∀ c ∈ qry, tabCrLf c = false)
    (hs : s = String.mk (urlunsplit pre (nl.map Char.toLower)
        (if (rstripSlashes qpath).isEmpty then ['/'] else rstripSlashes qpath)
        qry [])) :
    normalize_url s = .ok s := by
  have hpath2 : ∃ t2, (if (rstripSlashes qpath).isEmpty then ['/']
      else rstripSlashes qpath) = '/' :: t2 := by
    rcases hqpshape with rfl | ⟨t, rfl⟩
    · exact ⟨[], rfl⟩
    · rcases rstrip_head (t := t) with he | ⟨t2, he⟩
      · rw [he]
        exact ⟨[], rfl⟩
      · rw [he]
        exact ⟨t2, rfl⟩
  obtain ⟨t2, hp2⟩ := hpath2
  have hpath2_mem : ∀ c ∈ ('/' :: t2 : Chars), c = '/' ∨ c ∈ qpath := by
    intro c hc
    rw [← hp2] at hc
    by_cases he : (rstripSlashes qpath).isEmpty = true
    · rw [if_pos he] at hc
      simp only [List.mem_cons, List.not_mem_nil, or_false] at hc
      exact Or.inl hc
    · rw [if_neg he] at hc
      exact Or.inr (rstrip_subset hc)
  have hnlL_ne : nl.map Char.toLower ≠ [] := by
    intro hmap
    cases nl with
    | nil => exact hnl rfl
    | cons a l => simp at hmap
  have hnlL_pred : ∀ c ∈ nl.map Char.toLower, (!netlocDelim c) = true := by
    intro c hc
    obtain ⟨d, hd, rfl⟩ := List.mem_map.mp hc
    simp [netlocDelim_toLower (hnlpred d hd)]
  have hnlL_tab : ∀ c ∈ nl.map Char.toLower, tabCrLf c = false := by
    intro c hc
    obtain ⟨d, hd, rfl⟩ := List.mem_map.mp hc
    exact tabCrLf_toLower (hnltab d hd)
  have hbrL : bracketMismatch (nl.map Char.toLower) = false := by
    rw [bracketMismatch_map_toLower]
    exact hbr
  have hsl : s.toList = pre ++ ':' :: '/' :: '/' ::
      (nl.map Char.toLower ++ '/' :: t2 ++ (if qry.isEmpty then [] else '?' :: qry)) := by
    rw [hs, mk_toList, hp2]
    exact urlunsplit_nice pre (nl.map Char.toLower) qry t2 hpre hnlL_ne
  have hpref := startsWith_of_toList hpre hsl
  have hp2_noq : '?' ∉ ('/' :: t2 : Chars) := by
    intro hm
    rcases hpath2_mem _ hm with he | hm2
    · exact absurd he (by decide)
    · exact hqp_noq hm2
  have hp2_nohash : '#' ∉ ('/' :: t2 : Chars) := by
    intro hm
    rcases hpath2_mem _ hm with he | hm2
    · exact absurd he (by decide)
    · exact hqp_nohash hm2
  have hp2_nosemi : ';' ∉ ('/' :: t2 : Chars) := by
    intro hm
    rcases hpath2_mem _ hm with he | hm2
    · exact absurd he (by decide)
    · exact hqp_nosemi hm2
  have hp2_tab : ∀ c ∈ ('/' :: t2 : Chars), tabCrLf c = false := by
    intro c hc
    rcases hpath2_mem _ hc with rfl | hm2
    · decide
    · exact hqp_tab _ hm2
  have hfix : (if (rstripSlashes ('/' :: t2)).isEmpty then ['/']
      else rstripSlashes ('/' :: t2)) = '/' :: t2 := by
    by_cases he : (rstripSlashes qpath).isEmpty = true
    · have h1 : ('/' :: t2 : Chars) = ['/'] := by rw [← hp2, if_pos he]
      rw [h1]
      rfl
    · have h1 : ('/' :: t2 : Chars) = rstripSlashes qpath := by rw [← hp2, if_neg he]
      rw [h1, rstrip_idem, if_neg he]
  have hclean_s : cleanUrl (ensureScheme s).toList = pre ++ ':' :: '/' :: '/' ::
      (nl.map Char.toLower ++ '/' :: t2 ++ (if qry.isEmpty then [] else '?' :: qry)) := by
    rw [ensureScheme_noop s hpref, hsl]
    apply cleanUrl_of_clean (pre_head hpre _)
    intro c hc
    rcases List.mem_append.mp hc with hc1 | hc1
    · exact pre_tab hpre hc1
    rcases List.mem_cons.mp hc1 with rfl | hc2
    · decide
    rcases List.mem_cons.mp hc2 with rfl | hc3
    · decide
    rcases List.mem_cons.mp hc3 with rfl | hc4
    · decide
    rcases List.mem_append.mp hc4 with hc5 | hc5
    · rcases List.mem_append.mp hc5 with hc6 | hc6
      · exact hnlL_tab _ hc6
      · exact hp2_tab _ hc6
    · by_cases hq : qry.isEmpty = true
      · rw [if_pos hq] at hc5
        simp at hc5
      · rw [if_neg hq] at hc5
        rcases List.mem_cons.mp hc5 with rfl | hc6
        · decide
        · exact hqr_tab _ hc6
  cases qry with
  | nil =>
    have hqt : (if ([] : Chars).isEmpty then ([] : Chars) else ['?']) = [] := rfl
    rw [hqt, List.append_nil] at hclean_s
    have hfr : fragSplit ('/' :: t2) = ('/' :: t2, []) := by
      unfold fragSplit
      rw [splitFirst_not_mem hp2_nohash]
    have hqs : querySplit ('/' :: t2) = ('/' :: t2, []) := by
      unfold querySplit
      rw [splitFirst_not_mem hp2_noq]
    have h2 := normalize_of_parts s pre (nl.map Char.toLower ++ '/' :: t2)
        (nl.map Char.toLower) ('/' :: t2) ('/' :: t2) []
        hpre hclean_s
        (takeWhile_all_append hnlL_pred '/' (by decide) t2).1
        (takeWhile_all_append hnlL_pred '/' (by decide) t2).2
        (by rw [hfr]; dsimp only; rw [hqs])
        (by rw [hfr]; dsimp only; rw [hqs])
        hbrL hp2_nosemi
    rw [map_toLower_idem, hfix] at h2
    rw [h2, hs, hp2]
  | cons qh qt =>
    have hqt : (if (qh :: qt : Chars).isEmpty then ([] : Chars) else '?' :: qh :: qt)
        = '?' :: qh :: qt := rfl
    rw [hqt] at hclean_s
    have hassoc : (nl.map Char.toLower ++ '/' :: t2 ++ '?' :: qh :: qt : Chars)
        = nl.map Char.toLower ++ '/' :: (t2 ++ '?' :: qh :: qt) := by
      rw [List.append_assoc]
      rfl
    rw [hassoc] at hclean_s
    have hno : '#' ∉ ('/' :: (t2 ++ '?' :: qh :: qt) : Chars) := by
      intro hm
      rcases List.mem_cons.mp hm with he | hm2
      · exact absurd he (by decide)
      rcases List.mem_append.mp hm2 with hm3 | hm3
      · exact hp2_nohash (List.mem_cons_of_mem _ hm3)
      rcases List.mem_cons.mp hm3 with he | hm4
      · exact absurd he (by decide)
      · exact hqr_nohash hm4
    have hfr : fragSplit ('/' :: (t2 ++ '?' :: qh :: qt))
        = ('/' :: (t2 ++ '?' :: qh :: qt), []) := by
      unfold fragSplit
      rw [splitFirst_not_mem hno]
    have hqsp : querySplit ('/' :: (t2 ++ '?' :: qh :: qt)) = ('/' :: t2, qh :: qt) := by
      rw [show ('/' :: (t2 ++ '?' :: qh :: qt) : Chars)
          = ('/' :: t2) ++ '?' :: qh :: qt from rfl]
      unfold querySplit
      rw [splitFirst_append hp2_noq]
    have h2 := normalize_of_parts s pre
        (nl.map Char.toLower ++ '/' :: (t2 ++ '?' :: qh :: qt))
        (nl.map Char.toLower) ('/' :: (t2 ++ '?' :: qh :: qt)) ('/' :: t2) (qh :: qt)
        hpre hclean_s
        (takeWhile_all_append hnlL_pred '/' (by decide) (t2 ++ '?' :: qh :: qt)).1
        (takeWhile_all_append hnlL_pred '/' (by decide) (t2 ++ '?' :: qh :: qt)).2
        (by rw [hfr]; dsimp only; rw [hqsp])
        (by rw [hfr]; dsimp only; rw [hqsp])
        hbrL hp2_nosemi
    rw [map_toLower_idem, hfix] at h2
    rw [h2, hs, hp2]

/-- C6 counterexample: the normalizer is not idempotent.  On
`https://h/a/;b/` the first pass strips the trailing slash of the raw path
`/a/;b/` (whose last segment holds no parameter split), yielding
`https://h/a/;b`; reparsing that URL now finds a `;` after the last `/`, so
`urlparse` moves `b` into the params component and the second pass returns
the different string `https://h/a;b`. -/
theorem claim_C6_counterexample :
    normalize_url "https://h/a/;b/" = .ok "https://h/a/;b"
    ∧ normalize_url "https://h/a/;b" = .ok "https://h/a;b"
    ∧ ("https://h/a/;b" : String) ≠ "https://h/a;b" :=
  ⟨by with_unfolding_all rfl, by with_unfolding_all rfl,
   by with_unfolding_all decide⟩

/-- C6 amended: every successful output of `_normalize_url` begins with an
`http://` or `https://` scheme prefix and contains no `#` at all (so no
fragment), and the normalizer is idempotent on every input whose parse has a
nonempty host and no semicolon in the path — the counterexample shows the
semicolon proviso cannot be dropped. -/
theorem claim_C6_normalizer (u s : String) (hok : normalize_url u = .ok s) :
    (pyStartsWith s "http://" = true ∨ pyStartsWith s "https://" = true)
    ∧ '#' ∉ s.toList
    ∧ (∀ q : UrlParts, urlsplitE (ensureScheme u).toList = .ok q →
        q.netloc ≠ [] → ';' ∉ q.path → normalize_url s = .ok s) := by
  refine ⟨normalize_pre u s hok, normalize_no_hash u s hok, ?_⟩
  intro q hq hn hsc
  obtain ⟨pre, rest, hpre, hclean⟩ := ensured_shape u
  cases hbr : bracketMismatch (rest.takeWhile (fun c => !netlocDelim c)) with
  | true =>
    rw [urlsplitE_err _ pre rest hpre hclean hbr] at hq
    exact absurd hq (by simp)
  | false =>
    have hq0 := urlsplitE_char (ensureScheme u).toList pre rest hpre hclean hbr
    rw [hq0] at hq
    have he := Except.ok.inj hq
    subst he
    dsimp only at hn hsc
    have h1 := normalize_of_parts u pre rest
        (rest.takeWhile (fun c => !netlocDelim c))
        (rest.dropWhile (fun c => !netlocDelim c))
        ((querySplit (fragSplit (rest.dropWhile (fun c => !netlocDelim c))).1).1)
        ((querySplit (fragSplit (rest.dropWhile (fun c => !netlocDelim c))).1).2)
        hpre hclean rfl rfl rfl rfl hbr hsc
    rw [hok] at h1
    have hs := Except.ok.inj h1
    apply normalize_roundtrip pre (rest.takeWhile (fun c => !netlocDelim c))
        ((querySplit (fragSplit (rest.dropWhile (fun c => !netlocDelim c))).1).1)
        ((querySplit (fragSplit (rest.dropWhile (fun c => !netlocDelim c))).1).2)
        s hpre hn
    · intro c hc
      have := mem_takeWhile_pred hc
      simpa using this
    · intro c hc
      apply @cleanUrl_mem_not_tab (ensureScheme u).toList c
      rw [hclean]
      exact List.mem_append_right _ (List.mem_cons_of_mem _ (List.mem_cons_of_mem _
        (List.mem_cons_of_mem _ (mem_takeWhile_mem hc))))
    · exact hbr
    · apply qpath_head
      rcases dropWhile_shape (fun c => !netlocDelim c) rest with he | ⟨c, t, he, hpf⟩
      · exact Or.inl he
      · right
        refine ⟨c, t, he, ?_⟩
        simpa using hpf
    · exact querySplit_fst_no_q _
    · exact fun hm => fragSplit_fst_no_hash _ (querySplit_fst_subset hm)
    · exact hsc
    · intro c hc
      apply @cleanUrl_mem_not_tab (ensureScheme u).toList c
      rw [hclean]
      exact List.mem_append_right _ (List.mem_cons_of_mem _ (List.mem_cons_of_mem _
        (List.mem_cons_of_mem _
          (mem_dropWhile_mem (fragSplit_fst_subset (querySplit_fst_subset hc))))))
    · exact fun hm => fragSplit_fst_no_hash _ (querySplit_snd_subset hm)
    · intro c hc
      apply @cleanUrl_mem_not_tab (ensureScheme u).toList c
      rw [hclean]
      exact List.mem_append_right _ (List.mem_cons_of_mem _ (List.mem_cons_of_mem _
        (List.mem_cons_of_mem _
          (mem_dropWhile_mem (fragSplit_fst_subset (querySplit_snd_subset hc))))))
    · exact hs

theorem claim_C6_normalizer_witness :
    normalize_url "https://Example.COM/path/" = .ok "https://example.com/path"
    ∧ normalize_url "https://example.com/path" = .ok "https://example.com/path" :=
  ⟨by with_unfolding_all rfl,
   (claim_C6_normalizer "https://Example.COM/path/" "https://example.com/path"
      (by with_unfolding_all rfl)).2.2
     { scheme := "https".toList, netloc := "Example.COM".toList,
       path := "/path/".toList, params := [], query := [], fragment := [] }
     (by with_unfolding_all rfl)
     (by with_unfolding_all decide)
     (by with_unfolding_all decide)⟩

theorem claim_C7_normalizer_total_witness :
    (∀ c ∈ raw_netloc "example.com", c.toNat < 128)
    ∧ ∃ s, normalize_url "example.com" = .ok s :=
  ⟨by with_unfolding_all decide,
   claim_C7_normalizer_total "example.com" (by with_unfolding_all decide)
     (by with_unfolding_all decide) (by with_unfolding_all decide)⟩

end ESGCrawler
